import Mathlib

/-!
Verification development for the Spelltower solver of the PuzzmoSolvers
repository.

The repository contains three variants of the Spelltower solver:

* `src/lib/solvers/spelltower.ts` — the binary-search-dictionary variant
  (`isValidPrefix`, `isWord`, `traverse`, `findAllWords`, `solveSpelltower`).
  Embedded below in namespace `SpellBS`.
* `src/unnamed/part_007` — the trie-based variant with the clearing /
  gravity engine and the sequencing loop (`findWordsFromPosition`'s `dfs`,
  `findAllWords`, `clearWordAndApplyGravity`, `solveSpelltower`).
  Embedded below in namespace `SpellTrie`.
* `src/unnamed/part_006` — the Wordnik variant; its `getAdjacentCells`,
  `clearWordAndApplyGravity`, gravity and `isGridEmpty` code are
  character-for-character identical to `part_007`'s, so the `SpellTrie`
  embedding covers both.

Shared data model (identical `interface Cell`, `type Grid`, `interface
WordPath`, `interface SpelltowerSolution` declarations in all variants) is
embedded at top level.  JavaScript strings are embedded as `List Char`
(the sources only ever compare, concatenate, index and lowercase them,
all of which act per UTF-16 code unit on these inputs); a cell's
`letter` field, an empty-or-one-character string in the sources, is
embedded as `Option Char` (`none` = the empty string).  Scores are
natural numbers (the sources only ever add and multiply non-negative
values).  `ROWS = 13` and `COLS = 9` are written as literals.  The
sources deduplicate paths through string keys `"r,c->r,c->…"`; that
keying is injective on coordinate lists, so the embedding compares the
coordinate lists themselves.
-/

/-- Tile kinds, from `type CellType = 'letter' | 'blank' | 'red' | 'starred'`. -/
inductive CellType where
  | letter
  | blank
  | red
  | starred
deriving DecidableEq, Repr

/-- A board cell, from `interface Cell { letter: string; type: CellType }`;
the empty-string letter of a blank cell is `none`. -/
structure Cell where
  letter : Option Char
  type : CellType
deriving DecidableEq, Repr

/-- The cell the sources write as `{ letter: '', type: 'blank' }`. -/
def blankCell : Cell := ⟨none, CellType.blank⟩

/-- A board, from `type Grid = Cell[][]` (row-major, row 0 at the top). -/
abbrev Grid := List (List Cell)

/-- `grid[r][c]`.  Every read the sources perform is in bounds (`r < 13`,
`c < 9`, with rows 0–12 present), where this total function coincides with
array indexing; out of range it returns `blankCell`. -/
def getCell (g : Grid) (r c : Nat) : Cell := (g.getD r []).getD c blankCell

/-- The board has exactly 13 rows of 9 cells (`ROWS = 13`, `COLS = 9`). -/
def WellFormed (g : Grid) : Prop := g.length = 13 ∧ ∀ row ∈ g, row.length = 9

/-- From `interface WordPath`. -/
structure WordPath where
  word : List Char
  path : List (Nat × Nat)
  score : Nat
  hasRedTile : Bool
  hasStarredTile : Bool
deriving DecidableEq, Repr

/-- From `interface SpelltowerSolution`. -/
structure SpelltowerSolution where
  sequence : List WordPath
  totalScore : Nat
  clearedAll : Bool
deriving DecidableEq, Repr

/-- An intermediate `{ word, path }` result of the word search, before
scoring (the anonymous objects stored in `solutions` / `validWords`). -/
structure RawWord where
  word : List Char
  path : List (Nat × Nat)
deriving DecidableEq, Repr

/-- The eight direction offsets of `getAdjacentCells`, in source order
(`spelltower.ts` produces the same eight offsets in the same order from
its nested `i`/`j` loops as `part_007`'s `directions` table). -/
def directions : List (Int × Int) :=
  [(-1, -1), (-1, 0), (-1, 1), (0, -1), (0, 1), (1, -1), (1, 0), (1, 1)]

/-- `getAdjacentCells(row, col)`: the in-bounds 8-directional neighbours,
identical in `spelltower.ts` and `part_007`/`part_006`. -/
def getAdjacentCells (row col : Nat) : List (Nat × Nat) :=
  directions.filterMap fun d =>
    let newRow : Int := (row : Int) + d.1
    let newCol : Int := (col : Int) + d.2
    if 0 ≤ newRow ∧ newRow < 13 ∧ 0 ≤ newCol ∧ newCol < 9 then
      some (newRow.toNat, newCol.toNat)
    else
      none

/-- Two grid coordinates are 8-adjacent: their Chebyshev distance is 1. -/
def Adj8 (p q : Nat × Nat) : Prop :=
  max (Nat.dist p.1 q.1) (Nat.dist p.2 q.2) = 1

/-- Two grid coordinates are 4-directionally (non-diagonally) adjacent:
their taxicab distance is 1.  This is the notion §4.3 step 2 of the
specification uses; the sources use `Adj8` instead. -/
def Adj4 (p q : Nat × Nat) : Prop :=
  Nat.dist p.1 q.1 + Nat.dist p.2 q.2 = 1

/-- JavaScript's `<` on strings: lexicographic comparison by code unit,
with a proper prefix comparing smaller. -/
def ltCh : List Char → List Char → Bool
  | [], [] => false
  | [], _ :: _ => true
  | _ :: _, [] => false
  | a :: as, b :: bs => if a < b then true else if b < a then false else ltCh as bs

/-- The dictionary array is sorted ascending (the result of
`words.sort()` in `loadSortedDictionary`; duplicates permitted). -/
def SortedDict (d : List (List Char)) : Prop :=
  List.Pairwise (fun a b => ltCh b a = false) d

/-- Insert into a sorted list, before the first element the new element
compares `le` to (so before every tie: elements already in the list came
after the new one in the original). -/
def insertSorted {α : Type} (le : α → α → Bool) (x : α) : List α → List α
  | [] => [x]
  | y :: ys => if le x y then x :: y :: ys else y :: insertSorted le x ys

/-- A stable sort by the boolean "stays-before" test `le`.  V8's
`Array.prototype.sort` is a stable sort by its comparator; for the
consistent total preorders the solvers pass, every stable sort produces
the same list, so this insertion sort embeds it. -/
def sortBy {α : Type} (le : α → α → Bool) : List α → List α
  | [] => []
  | x :: xs => insertSorted le x (sortBy le xs)

/-- A cell that counts as a tile: `type !== 'blank' && letter !== ''`,
the test used by gravity, `isGridEmpty` and `countRemainingTiles` in all
variants. -/
def isTile (cell : Cell) : Bool :=
  decide (cell.type ≠ CellType.blank ∧ cell.letter ≠ none)

/-- One column of the grid, read top to bottom. -/
def colCells (g : Grid) (c : Nat) : List Cell :=
  (List.range 13).map fun r => getCell g r c

/-- The settled contents of one column, top to bottom.  The sources
collect the non-blank cells bottom-to-top into `column` and write
`column[12 - r]` into row `r` while `12 - r < column.length`, blank
otherwise; row `r` of the result is therefore blank for
`r < 13 - n` and the `(r - (13 - n))`-th non-blank cell (in
top-to-bottom order) otherwise, where `n` counts the non-blank cells —
exactly this list. -/
def settleColumn (col : List Cell) : List Cell :=
  let column := col.filter isTile
  List.replicate (13 - column.length) blankCell ++ column

/-- `applyGravity` of `spelltower.ts`, identically the gravity loop at
the end of `clearWordAndApplyGravity` in `part_007`/`part_006`: per
column, compact the non-blank cells to the bottom.  The loops write every
cell `(r, c)` with `r < 13`, `c < 9` exactly once, reading only the
original column contents, so the in-place mutation is embedded as this
rebuild (rows beyond 12, never read nor written by any variant's loops,
are not reproduced). -/
def applyGravity (g : Grid) : Grid :=
  (List.range 13).map fun r => (List.range 9).map fun c =>
    (settleColumn (colCells g c)).getD r blankCell

/-- `isGridEmpty`: no cell passes the tile test. -/
def isGridEmpty (g : Grid) : Bool :=
  (List.range 13).all fun r => (List.range 9).all fun c => !isTile (getCell g r c)

/-- `countRemainingTiles` of `part_007`: the number of cells passing the
tile test. -/
def countRemainingTiles (g : Grid) : Nat :=
  ((List.range 13).map fun r =>
    ((List.range 9).filter fun c => isTile (getCell g r c)).length).sum

namespace SpellBS

/-- The `while (begin <= end)` loop of `isWord` in `spelltower.ts`.  The
JavaScript indices `begin`/`end` (where `end` may reach −1) are embedded
as `b`/`e` with `e` the *exclusive* end, `e = end + 1`, keeping all
arithmetic in `Nat`: the guard `begin <= end` is `b < e`, the midpoint
`⌊(begin + end) / 2⌋` is `(b + e - 1) / 2` and `end = mid - 1` is
`e := mid`.  `fuel` makes the recursion structural; each step shrinks
`e - b`, so any `fuel > e - b` gives the loop's exact behaviour (with
fuel 0 forcing `e ≤ b`, the loop's exit). -/
def isWordLoop (dictionary : List (List Char)) (word : List Char) :
    Nat → Nat → Nat → Bool
  | 0, _, _ => false
  | fuel + 1, b, e =>
    if b < e then
      let mid := (b + e - 1) / 2
      let dictWord := dictionary.getD mid []
      if dictWord = word then true
      else if ltCh word dictWord then isWordLoop dictionary word fuel b mid
      else isWordLoop dictionary word fuel (mid + 1) e
    else false

/-- `isWord(dictionary, word)` of `spelltower.ts`: binary search for
exact membership, starting from `begin = 0`, `end = dictionary.length - 1`. -/
def isWord (dictionary : List (List Char)) (word : List Char) : Bool :=
  isWordLoop dictionary word (dictionary.length + 1) 0 dictionary.length

/-- The `while (begin <= end)` loop of `isValidPrefix`, embedded exactly
as `isWordLoop` is. -/
def isValidPrefixLoop (dictionary : List (List Char)) (pref : List Char) :
    Nat → Nat → Nat → Bool
  | 0, _, _ => false
  | fuel + 1, b, e =>
    if b < e then
      let mid := (b + e - 1) / 2
      let word := dictionary.getD mid []
      if pref.isPrefixOf word then true
      else if ltCh pref word then isValidPrefixLoop dictionary pref fuel b mid
      else isValidPrefixLoop dictionary pref fuel (mid + 1) e
    else false

/-- `isValidPrefix(dictionary, prefix)` of `spelltower.ts`: `true` for the
empty string, otherwise binary search for a word starting with the prefix
(`word.startsWith(prefix)`). -/
def isValidPrefix (dictionary : List (List Char)) (pref : List Char) : Bool :=
  if pref.length = 0 then true
  else isValidPrefixLoop dictionary pref (dictionary.length + 1) 0 dictionary.length

/-- The `LETTER_VALUES` table, looked up on the upper-cased letter with
default 0 (`getLetterValue`). -/
def getLetterValue (letter : Char) : Nat :=
  let c := letter.toUpper
  if c = 'Q' then 12
  else if c = 'Z' then 11
  else if c = 'J' then 9
  else if c = 'X' then 9
  else if c = 'K' then 6
  else if c = 'F' ∨ c = 'H' ∨ c = 'V' ∨ c = 'W' ∨ c = 'Y' then 5
  else if c = 'B' ∨ c = 'C' ∨ c = 'M' ∨ c = 'P' then 4
  else if c = 'D' ∨ c = 'G' then 3
  else if c = 'L' ∨ c = 'N' ∨ c = 'R' ∨ c = 'T' then 2
  else if c = 'A' ∨ c = 'E' ∨ c = 'I' ∨ c = 'O' ∨ c = 'U' ∨ c = 'S' then 1
  else 0

/-- `traverse` of `spelltower.ts` (parameter order `x` = column, `y` =
row, as in the source).  The mutable `visited` array is marked/unmarked
in lockstep with `path.push`/`path.pop`, so `visited[y][x]` is embedded
as `(y, x) ∈ path`; the shared `solutions` map (insertion-ordered, keyed
by the path) is the threaded accumulator, with membership of the path
standing for the key test; `(value + letter).toLowerCase()` lowercases
per character.  Recursion is made structural by `fuel`, which keeps the
invariant `fuel + path.length = 117`: every call pushes one more
distinct in-bounds non-blank cell onto `path`, so a call with `fuel = 0`
has all 117 in-bounds cells in `path` and the source would return at
the bounds or visited test with `solutions` unchanged, as the 0 branch
does; starting with `fuel = 117` and an empty path therefore reproduces
the unbounded source recursion exactly. -/
def traverse (dictionary : List (List Char)) (grid : Grid) :
    Nat → Nat → Nat → List Char → List (Nat × Nat) → List RawWord → List RawWord
  | 0, _, _, _, _, solutions => solutions
  | fuel + 1, x, y, value, path, solutions =>
    if 9 ≤ x ∨ 13 ≤ y then solutions
    else
      match (getCell grid y x).letter with
      | none => solutions
      | some ch =>
        if (y, x) ∈ path then solutions
        else
          let newWord := (value ++ [ch]).map Char.toLower
          if isValidPrefix dictionary newWord = false then solutions
          else
            let path2 := path ++ [(y, x)]
            let solutions2 :=
              if 3 ≤ newWord.length ∧ isWord dictionary newWord = true ∧
                  path2 ∉ solutions.map RawWord.path then
                solutions ++ [⟨newWord, path2⟩]
              else solutions
            (getAdjacentCells y x).foldl
              (fun acc q => traverse dictionary grid fuel q.2 q.1 newWord path2 acc)
              solutions2

/-- The scoring step of `findAllWords` in `spelltower.ts`: red/star flags
from the path, `score = tileValueSum * word.length * (1 + starCount)`. -/
def scoreWord (grid : Grid) (c : RawWord) : WordPath :=
  let hasRedTile := c.path.any fun p => decide ((getCell grid p.1 p.2).type = CellType.red)
  let starCount :=
    (c.path.filter fun p => decide ((getCell grid p.1 p.2).type = CellType.starred)).length
  let hasStarredTile := decide (0 < starCount)
  let tileValueSum :=
    (c.path.map fun p => ((getCell grid p.1 p.2).letter.map getLetterValue).getD 0).sum
  ⟨c.word, c.path, tileValueSum * c.word.length * (1 + starCount), hasRedTile, hasStarredTile⟩

/-- The sort comparator of `findAllWords` in `spelltower.ts` as a stable
"stays-before" test: longer words first, ties by `localeCompare`
ascending (which on these lower-cased ASCII words is code-unit order). -/
def sortLe (a b : WordPath) : Bool :=
  if a.word.length = b.word.length then !ltCh b.word a.word
  else decide (b.word.length ≤ a.word.length)

/-- `findAllWords` of `spelltower.ts`: run `traverse` from every cell
with a letter (one `solutions` map shared across all starts), score, and
sort by length descending then alphabetically. -/
def findAllWords (dictionary : List (List Char)) (grid : Grid) : List WordPath :=
  let solutions :=
    (List.range 13).foldl (fun acc row =>
      (List.range 9).foldl (fun acc2 col =>
        if (getCell grid row col).letter ≠ none then
          traverse dictionary grid 117 col row [] [] acc2
        else acc2) acc) []
  sortBy sortLe (solutions.map (scoreWord grid))

/-- `createEmptyGrid` of `spelltower.ts`: 13×9 cells
`{ letter: '', type: 'letter' }`. -/
def createEmptyGrid : Grid :=
  (List.range 13).map fun _ => (List.range 9).map fun _ => ⟨none, CellType.letter⟩

/-- `solveSpelltower` of `spelltower.ts` (the dictionary parameter stands
for the awaited `loadSortedDictionary()` result): returns all found words
with their summed score; `clearedAll` is `false` on both paths. -/
def solveSpelltower (dictionary : List (List Char)) (grid : Grid) : SpelltowerSolution :=
  let allWords := findAllWords dictionary grid
  if allWords.isEmpty then ⟨[], 0, false⟩
  else ⟨allWords, (allWords.map WordPath.score).sum, false⟩

end SpellBS

namespace SpellTrie

/-- The dictionary trie of `part_007` (`loadDictionaryTrie` lives in
`src/lib/dictionaryTrie.ts`, which is not part of the sources; `dfs` only
calls its two query methods, so it is embedded as an abstract pair of
oracles).  `hasPref` embeds the source's `hasPrefix` method. -/
structure Lexicon where
  hasPref : List Char → Bool
  isWord : List Char → Bool

/-- The inner `dfs` of `findWordsFromPosition` in `part_007`.  The
mutable `usedCells` flags are set/cleared in lockstep with
`path.push`/`path.pop`, so `usedCells[row][col]` is embedded as
`(row, col) ∈ path`; `visited` holds exactly the path keys of the words
pushed so far, so the key test is membership of the path among the
accumulated paths.  Recursion is made structural by `fuel`, which keeps
the invariant `fuel + currentWord.length = maxLength + 1` (initial call:
empty word, `fuel = maxLength + 1`): the source's guard
`newWord.length < maxLength` admits recursion only when the new fuel
`maxLength - newWord.length + 1` is still positive, so the 0 branch is
never reached from the initial call and the behaviour is exactly the
source's. -/
def dfs (lexicon : Lexicon) (grid : Grid) (minLength maxLength : Nat) :
    Nat → Nat → Nat → List Char → List (Nat × Nat) → List RawWord → List RawWord
  | 0, _, _, _, _, validWords => validWords
  | fuel + 1, row, col, currentWord, path, validWords =>
    if (row, col) ∈ path then validWords
    else
      match (getCell grid row col).letter with
      | none => validWords
      | some ch =>
        if (getCell grid row col).type = CellType.blank then validWords
        else
          let newWord := currentWord ++ [ch]
          if lexicon.hasPref newWord = false then validWords
          else
            let path2 := path ++ [(row, col)]
            let validWords2 :=
              if minLength ≤ newWord.length ∧ newWord.length ≤ maxLength ∧
                  lexicon.isWord newWord = true ∧
                  path2 ∉ validWords.map RawWord.path then
                validWords ++ [⟨newWord, path2⟩]
              else validWords
            if newWord.length < maxLength then
              (getAdjacentCells row col).foldl
                (fun acc q =>
                  dfs lexicon grid minLength maxLength fuel q.1 q.2 newWord path2 acc)
                validWords2
            else validWords2

/-- `findWordsFromPosition` of `part_007` (called by `findAllWords` with
`minLength = 3`, `maxLength = 15`). -/
def findWordsFromPosition (lexicon : Lexicon) (grid : Grid)
    (startRow startCol minLength maxLength : Nat) : List RawWord :=
  if (getCell grid startRow startCol).type = CellType.blank ∨
      (getCell grid startRow startCol).letter = none then []
  else dfs lexicon grid minLength maxLength (maxLength + 1) startRow startCol [] [] []

/-- The `seenPaths` deduplication of `findAllWords` in `part_007`:
append the words whose path is not already present. -/
def addNewPaths (acc : List RawWord) (ws : List RawWord) : List RawWord :=
  ws.foldl (fun a w => if w.path ∈ a.map RawWord.path then a else a ++ [w]) acc

/-- The collection loop of `findAllWords` in `part_007`. -/
def findAllWordsRaw (lexicon : Lexicon) (grid : Grid) : List RawWord :=
  (List.range 13).foldl (fun acc row =>
    (List.range 9).foldl (fun acc2 col =>
      addNewPaths acc2 (findWordsFromPosition lexicon grid row col 3 15)) acc) []

/-- The scoring step of `findAllWords` in `part_007`:
`score = length² (doubled on a starred tile)`. -/
def scoreWord (grid : Grid) (c : RawWord) : WordPath :=
  let hasRedTile := c.path.any fun p => decide ((getCell grid p.1 p.2).type = CellType.red)
  let hasStarredTile :=
    c.path.any fun p => decide ((getCell grid p.1 p.2).type = CellType.starred)
  let score0 := c.word.length * c.word.length
  ⟨c.word, c.path, if hasStarredTile then score0 * 2 else score0, hasRedTile, hasStarredTile⟩

/-- `findAllWords` of `part_007`: collect, score, sort by score
descending (`(a, b) => b.score - a.score`, stable; `a` stays before `b`
exactly when `b.score ≤ a.score`). -/
def findAllWords (lexicon : Lexicon) (grid : Grid) : List WordPath :=
  sortBy (fun a b => decide (b.score ≤ a.score))
    ((findAllWordsRaw lexicon grid).map (scoreWord grid))

/-- The `cellsToClear` set of `clearWordAndApplyGravity` in
`part_007`/`part_006`, as the list of added coordinates: the path cells;
for each red path cell (when `hasRedTile`) its whole row; then for words
longer than 4 letters every 8-directional neighbour of a path cell, and
for shorter words every such neighbour whose type is blank. -/
def clearList (g : Grid) (wordPath : WordPath) : List (Nat × Nat) :=
  wordPath.path
    ++ (if wordPath.hasRedTile then
          wordPath.path.foldl (fun acc p =>
            if (getCell g p.1 p.2).type = CellType.red then
              acc ++ (List.range 9).map fun c => (p.1, c)
            else acc) []
        else [])
    ++ (if 4 < wordPath.word.length then
          wordPath.path.foldl (fun acc p => acc ++ getAdjacentCells p.1 p.2) []
        else
          wordPath.path.foldl (fun acc p =>
            acc ++ (getAdjacentCells p.1 p.2).filter fun q =>
              decide ((getCell g q.1 q.2).type = CellType.blank)) [])

/-- `cellsToClear` as the set it is in the source (a JavaScript `Set` of
injective `"r,c"` keys). -/
def clearSet (g : Grid) (wordPath : WordPath) : Finset (Nat × Nat) :=
  (clearList g wordPath).toFinset

/-- The clearing loop of `clearWordAndApplyGravity`: every cell of the
set becomes `{ letter: '', type: 'blank' }`.  Embedded as a 13×9 rebuild
(the source writes in place; all keys produced inside the solver are in
bounds). -/
def clearCells (g : Grid) (s : Finset (Nat × Nat)) : Grid :=
  (List.range 13).map fun r => (List.range 9).map fun c =>
    if (r, c) ∈ s then blankCell else getCell g r c

/-- `clearWordAndApplyGravity` of `part_007`/`part_006`: copy, build the
clear set, clear, apply gravity. -/
def clearWordAndApplyGravity (g : Grid) (wordPath : WordPath) : Grid :=
  applyGravity (clearCells g (clearSet g wordPath))

/-- The cell list whose deduplicated size `countTilesCleared` of
`part_007` returns: path cells; for red path cells (when `hasRedTile`)
the non-blank cells of the row; for words longer than 4 letters the
non-blank 8-directional neighbours of path cells (no blank-neighbour
branch here). -/
def countClearList (g : Grid) (wordPath : WordPath) : List (Nat × Nat) :=
  wordPath.path
    ++ (if wordPath.hasRedTile then
          wordPath.path.foldl (fun acc p =>
            if (getCell g p.1 p.2).type = CellType.red then
              acc ++ ((List.range 9).filter fun c => isTile (getCell g p.1 c)).map
                fun c => (p.1, c)
            else acc) []
        else [])
    ++ (if 4 < wordPath.word.length then
          wordPath.path.foldl (fun acc p =>
            acc ++ (getAdjacentCells p.1 p.2).filter fun q =>
              isTile (getCell g q.1 q.2)) []
        else [])

/-- `countTilesCleared` of `part_007`: the size of the deduplicating set. -/
def countTilesCleared (g : Grid) (wordPath : WordPath) : Nat :=
  (countClearList g wordPath).toFinset.card

/-- Placeholder for `availableWords[0]` on an empty candidate list; the
solver only selects from non-empty lists. -/
def dummyWord : WordPath := ⟨[], [], 0, false, false⟩

/-- The early-game branch of the selection strategy in `solveSpelltower`
(`part_007`): over the first `min(20, length)` candidates, track the
maximum `clearingPower = countTilesCleared + (10 if length > 7)`,
starting from `bestWord = availableWords[0]`, `maxCleared = 0`; update on
strict improvement. -/
def pickByClearing (g : Grid) (availableWords : List WordPath) : WordPath :=
  ((availableWords.take 20).foldl
    (fun best word =>
      let tilesCleared := countTilesCleared g word
      let clearingPower := tilesCleared + (if 7 < word.word.length then 10 else 0)
      if best.1 < clearingPower then (clearingPower, word) else best)
    (0, availableWords.headD dummyWord)).2

/-- The late-game branch: over the first `min(15, length)` candidates,
simulate the play and prefer fewer remaining tiles, ties broken by the
strictly higher score. -/
def pickByLookahead (g : Grid) (availableWords : List WordPath) : WordPath :=
  let remainingTiles := countRemainingTiles g
  ((availableWords.take 15).foldl
    (fun best word =>
      let testGrid := clearWordAndApplyGravity g word
      let tilesRemaining := countRemainingTiles testGrid
      if tilesRemaining < best.1 then (tilesRemaining, word)
      else if tilesRemaining = best.1 ∧ best.2.score < word.score then (best.1, word)
      else best)
    (remainingTiles, availableWords.headD dummyWord)).2

/-- The selection step of `solveSpelltower` (`part_007`):
clearing-power strategy while more than 50 tiles remain, lookahead
strategy otherwise. -/
def selectWord (g : Grid) (availableWords : List WordPath) : WordPath :=
  if 50 < countRemainingTiles g then pickByClearing g availableWords
  else pickByLookahead g availableWords

/-- The `while (!isGridEmpty && iterations < MAX_ITERATIONS)` loop of
`solveSpelltower` in `part_007`; `fuel` counts the remaining allowed
iterations (50 at the start).  Returns the sequence, the accumulated
score and the final grid. -/
def solveLoop (lexicon : Lexicon) :
    Nat → Grid → List WordPath → Nat → List WordPath × Nat × Grid
  | 0, g, seq, total => (seq, total, g)
  | fuel + 1, g, seq, total =>
    if isGridEmpty g then (seq, total, g)
    else
      let availableWords := findAllWords lexicon g
      if availableWords.isEmpty then (seq, total, g)
      else
        let bestWord := selectWord g availableWords
        solveLoop lexicon fuel (clearWordAndApplyGravity g bestWord)
          (seq ++ [bestWord]) (total + bestWord.score)

/-- `solveSpelltower` of `part_007` (`MAX_ITERATIONS = 50`): run the
loop, then add the 1000-point bonus when the final grid is empty. -/
def solveSpelltower (lexicon : Lexicon) (initialGrid : Grid) : SpelltowerSolution :=
  let res := solveLoop lexicon 50 initialGrid [] 0
  let clearedAll := isGridEmpty res.2.2
  ⟨res.1, if clearedAll then res.2.1 + 1000 else res.2.1, clearedAll⟩

/-- `createEmptyGrid` of `part_007`: 13×9 cells
`{ letter: '', type: 'blank' }`. -/
def createEmptyGrid : Grid :=
  (List.range 13).map fun _ => (List.range 9).map fun _ => blankCell

end SpellTrie

/-- The path well-formedness facts of §3/§8 for a discovered word and
path on grid `g`, with `f` the transform the search applies to board
letters when building the word (`id` for `part_007`'s `dfs`,
`Char.toLower` for `spelltower.ts`'s `traverse`): the coordinates are
pairwise distinct and in bounds, consecutive coordinates are 8-adjacent,
and the word is exactly the (transformed) board letters along the path. -/
def GoodPath (g : Grid) (f : Char → Char) (word : List Char)
    (path : List (Nat × Nat)) : Prop :=
  path.Nodup ∧ List.Chain' Adj8 path ∧ (∀ p ∈ path, p.1 < 13 ∧ p.2 < 9) ∧
  path.map (fun p => ((getCell g p.1 p.2).letter).map f) = word.map some

/-- Every path cell is a tile (non-blank with a letter). -/
def TilePath (g : Grid) (path : List (Nat × Nat)) : Prop :=
  ∀ p ∈ path, isTile (getCell g p.1 p.2) = true

/-- What `part_007`'s search guarantees for every collected raw word. -/
def GoodRaw (lexicon : SpellTrie.Lexicon) (g : Grid) (minLength : Nat)
    (f : RawWord) : Prop :=
  f.path ≠ [] ∧ GoodPath g id f.word f.path ∧ TilePath g f.path ∧
  minLength ≤ f.word.length ∧ lexicon.isWord f.word = true

/-- What `spelltower.ts`'s search guarantees for every collected raw word. -/
def GoodRawBS (dictionary : List (List Char)) (g : Grid) (f : RawWord) : Prop :=
  f.path ≠ [] ∧ GoodPath g Char.toLower f.word f.path ∧
  3 ≤ f.word.length ∧ SpellBS.isWord dictionary f.word = true

/-! Concrete fixtures used by counterexamples and witnesses. -/

/-- A sorted dictionary containing only the word "cat". -/
def catDict : List (List Char) := [['c', 'a', 't']]

/-- An abstract lexicon accepting exactly "cat" (and its prefixes). -/
def catLex : SpellTrie.Lexicon :=
  ⟨fun s => s.isPrefixOf ['c', 'a', 't'], fun s => decide (s = ['c', 'a', 't'])⟩

/-- A row of nine blank cells. -/
def blankRow : List Cell := List.replicate 9 blankCell

/-- A normal (kind `letter`) tile. -/
def tileOf (ch : Char) : Cell := ⟨some ch, CellType.letter⟩

/-- The Scenario A board: 13×9, all blank except
`(12,0)='c'`, `(12,1)='a'`, `(12,2)='t'` of normal kind. -/
def catBoard : Grid :=
  List.replicate 12 blankRow ++
    [[tileOf 'c', tileOf 'a', tileOf 't'] ++ List.replicate 6 blankCell]

/-- The Scenario A board with upper-case letters. -/
def catBoardU : Grid :=
  List.replicate 12 blankRow ++
    [[tileOf 'C', tileOf 'A', tileOf 'T'] ++ List.replicate 6 blankCell]

/-- A 5-letter word path running up the diagonal
`(12,0), (11,1), (10,2), (9,3), (8,4)` (consecutive cells 8-adjacent). -/
def wpDiag : WordPath :=
  ⟨['a', 'b', 'c', 'd', 'e'], [(12, 0), (11, 1), (10, 2), (9, 3), (8, 4)], 25, false, false⟩

/-- A board carrying the diagonal word of `wpDiag` plus a tile at
`(10,0)`, which is diagonally adjacent to the path cell `(11,1)` but
4-adjacent to no path cell. -/
def diagBoard : Grid :=
  [blankRow, blankRow, blankRow, blankRow, blankRow, blankRow, blankRow, blankRow,
   List.replicate 4 blankCell ++ [tileOf 'e'] ++ List.replicate 4 blankCell,
   List.replicate 3 blankCell ++ [tileOf 'd'] ++ List.replicate 5 blankCell,
   [tileOf 'z', blankCell, tileOf 'c'] ++ List.replicate 6 blankCell,
   [blankCell, tileOf 'b'] ++ List.replicate 7 blankCell,
   [tileOf 'a'] ++ List.replicate 8 blankCell]

/-- A 3-letter word path along row 7 whose first cell is red. -/
def wpRed : WordPath := ⟨['c', 'a', 't'], [(7, 0), (7, 1), (7, 2)], 9, true, false⟩

/-- A row with a tile in column 8 only. -/
def xRow : List Cell := List.replicate 8 blankCell ++ [tileOf 'x']

/-- The board for the red-row scenario: the word "cat" sits in row 7
with `(7,0)` red, and column 8 is full of tiles in every row. -/
def redBoard : Grid :=
  List.replicate 7 xRow ++
    [[⟨some 'c', CellType.red⟩, tileOf 'a', tileOf 't'] ++
      List.replicate 5 blankCell ++ [tileOf 'x']] ++
    List.replicate 5 xRow

/-- A malformed, 14-row all-blank board. -/
def grid14 : Grid := SpellTrie.createEmptyGrid ++ [blankRow]

/-! Lemmas. -/

lemma adj8_iff {p q : Nat × Nat} :
    Adj8 p q ↔ Nat.dist p.1 q.1 ≤ 1 ∧ Nat.dist p.2 q.2 ≤ 1 ∧ p ≠ q := by
  rcases p with ⟨pr, pc⟩
  rcases q with ⟨qr, qc⟩
  have hne : (pr, pc) ≠ (qr, qc) ↔ ¬(pr = qr ∧ pc = qc) := by
    simp [Prod.ext_iff]
  simp only [Adj8, hne, Nat.dist]
  rcases Nat.le_total (pr - qr + (qr - pr)) (pc - qc + (qc - pc)) with h | h
  · rw [Nat.max_eq_right h]; omega
  · rw [Nat.max_eq_left h]; omega

set_option maxHeartbeats 1600000 in
lemma mem_getAdjacentCells {row col : Nat} {q : Nat × Nat} :
    q ∈ getAdjacentCells row col ↔ q.1 < 13 ∧ q.2 < 9 ∧ Adj8 (row, col) q := by
  rcases q with ⟨qr, qc⟩
  rw [adj8_iff]
  simp only [getAdjacentCells, directions, List.mem_filterMap]
  constructor
  · rintro ⟨d, hd, hsome⟩
    split at hsome
    · rename_i hb
      simp only [Option.some.injEq, Prod.mk.injEq] at hsome
      obtain ⟨h1, h2⟩ := hsome
      fin_cases hd <;>
        simp only [ne_eq, Prod.mk.injEq, Nat.dist] at hb h1 h2 ⊢ <;> omega
    · exact absurd hsome (by simp)
  · rintro ⟨hr, hc, hd1, hd2, hne⟩
    simp only [Nat.dist] at hd1 hd2
    have hne2 : ¬(row = qr ∧ col = qc) := by
      intro hh
      exact hne (by rw [hh.1, hh.2])
    refine ⟨((qr : Int) - row, (qc : Int) - col), ?_, ?_⟩
    · simp only [List.mem_cons, List.not_mem_nil, or_false, Prod.mk.injEq]
      omega
    · have hcond : (0 : Int) ≤ (row : Int) + ((qr : Int) - row) ∧
          (row : Int) + ((qr : Int) - row) < 13 ∧
          (0 : Int) ≤ (col : Int) + ((qc : Int) - col) ∧
          (col : Int) + ((qc : Int) - col) < 9 := by omega
      rw [if_pos hcond]
      simp only [Option.some.injEq, Prod.mk.injEq]
      omega

lemma ltCh_irrefl (s : List Char) : ltCh s s = false := by
  induction s with
  | nil => rfl
  | cons a as ih => simp [ltCh, ih]

lemma ltCh_asymm : ∀ {s t : List Char}, ltCh s t = true → ltCh t s = false
  | [], [], h => by simp [ltCh] at h
  | [], _ :: _, _ => rfl
  | _ :: _, [], h => by simp [ltCh] at h
  | a :: as, b :: bs, h => by
    simp only [ltCh] at h ⊢
    rcases lt_trichotomy a b with hab | hab | hab
    · simp [hab, not_lt_of_gt hab]
    · subst hab
      simp only [lt_irrefl, if_false] at h ⊢
      exact ltCh_asymm h
    · simp [hab, not_lt_of_gt hab] at h

lemma ltCh_connect : ∀ {s t : List Char}, ltCh s t = false → ltCh t s = false → s = t
  | [], [], _, _ => rfl
  | [], _ :: _, h, _ => by simp [ltCh] at h
  | _ :: _, [], _, h => by simp [ltCh] at h
  | a :: as, b :: bs, h, h' => by
    simp only [ltCh] at h h'
    rcases lt_trichotomy a b with hab | hab | hab
    · simp [hab] at h
    · subst hab
      simp only [lt_irrefl, if_false] at h h'
      rw [ltCh_connect h h']
    · simp [hab] at h'

lemma ltCh_trans : ∀ {s t u : List Char},
    ltCh s t = true → ltCh t u = true → ltCh s u = true
  | [], [], _, h, _ => by simp [ltCh] at h
  | _ :: _, [], _, h, _ => by simp [ltCh] at h
  | [], _ :: _, [], _, h => by simp [ltCh] at h
  | [], _ :: _, _ :: _, _, _ => rfl
  | _ :: _, _ :: _, [], _, h => by simp [ltCh] at h
  | a :: as, b :: bs, c :: cs, h, h' => by
    simp only [ltCh] at h h' ⊢
    rcases lt_trichotomy a b with hab | hab | hab
    · rcases lt_trichotomy b c with hbc | hbc | hbc
      · simp [lt_trans hab hbc]
      · subst hbc; simp [hab]
      · simp [hbc, not_lt_of_gt hbc] at h'
    · subst hab
      simp only [lt_irrefl, if_false] at h
      rcases lt_trichotomy a c with hac | hac | hac
      · simp [hac]
      · subst hac
        simp only [lt_irrefl, if_false] at h' ⊢
        exact ltCh_trans h h'
      · simp [hac, not_lt_of_gt hac] at h'
    · simp [hab, not_lt_of_gt hab] at h

/-- `s ≤ u` from `s ≤ t ≤ u` in the `ltCh` order
(`ltCh t s = false` reads "`s ≤ t`"). -/
lemma ltCh_le_trans {s t u : List Char}
    (h : ltCh t s = false) (h' : ltCh u t = false) : ltCh u s = false := by
  by_contra hcon
  rw [Bool.not_eq_false] at hcon
  rcases Bool.eq_false_or_eq_true (ltCh s t) with hst | hst
  · have := ltCh_trans hcon hst
    simp [this] at h'
  · have := ltCh_connect hst h
    subst this
    simp [hcon] at h'

/-- `a < b ≤ c` gives `a < c` in the `ltCh` order. -/
lemma ltCh_lt_of_lt_of_le {a b c : List Char}
    (hab : ltCh a b = true) (hcb : ltCh c b = false) : ltCh a c = true := by
  by_contra hac
  rw [Bool.not_eq_true] at hac
  rcases Bool.eq_false_or_eq_true (ltCh c a) with hca | hca
  · have := ltCh_trans hca hab
    simp [this] at hcb
  · have := ltCh_connect hac hca
    subst this
    simp [hab] at hcb

/-- `a ≤ b < c` gives `a < c` in the `ltCh` order
(`hba : ltCh b a = false` reads "`a ≤ b`"). -/
lemma ltCh_lt_of_le_of_lt {a b c : List Char}
    (hba : ltCh b a = false) (hbc : ltCh b c = true) : ltCh a c = true := by
  by_contra hac
  rw [Bool.not_eq_true] at hac
  rcases Bool.eq_false_or_eq_true (ltCh c a) with hca | hca
  · have := ltCh_trans hbc hca
    simp [this] at hba
  · have := ltCh_connect hac hca
    subst this
    simp [hbc] at hba

/-- A string never compares below its own prefix. -/
lemma ltCh_of_isPrefix : ∀ {p w : List Char}, p <+: w → ltCh w p = false
  | [], [], _ => rfl
  | [], _ :: _, _ => rfl
  | _ :: _, [], h => by
    simp only [List.prefix_nil] at h
    exact absurd h (by simp)
  | a :: as, b :: bs, h => by
    obtain ⟨rfl, h'⟩ := (List.cons_prefix_cons.mp h)
    simp only [ltCh, lt_irrefl, if_false]
    exact ltCh_of_isPrefix h'

/-- If `p < m` in the `ltCh` order and `m` does not start with `p`, then
every string starting with `p` is below `m` too (strings with a common
prefix form a contiguous block in the order). -/
lemma ltCh_of_lt_of_isPrefix : ∀ {p m x : List Char},
    ltCh p m = true → ¬(p <+: m) → p <+: x → ltCh x m = true
  | [], m, x, _, hnp, _ => absurd (List.nil_prefix) hnp
  | _ :: _, [], _, h, _, _ => by simp [ltCh] at h
  | a :: as, b :: bs, x, h, hnp, hpx => by
    obtain ⟨x', rfl, hpx'⟩ :
        ∃ x', x = a :: x' ∧ as <+: x' := by
      rcases hpx with ⟨t, ht⟩
      cases x with
      | nil => simp at ht
      | cons c cs =>
        obtain ⟨rfl, h2⟩ := List.cons.inj ht
        exact ⟨cs, rfl, ⟨t, h2⟩⟩
    simp only [ltCh] at h ⊢
    rcases lt_trichotomy a b with hab | hab | hab
    · simp [hab]
    · subst hab
      simp only [lt_irrefl, if_false] at h ⊢
      have hnp' : ¬(as <+: bs) := fun hh => hnp (List.cons_prefix_cons.mpr ⟨rfl, hh⟩)
      exact ltCh_of_lt_of_isPrefix h hnp' hpx'
    · simp [hab, not_lt_of_gt hab] at h

lemma insertSorted_perm {α : Type} (le : α → α → Bool) (x : α) :
    ∀ l : List α, (insertSorted le x l).Perm (x :: l)
  | [] => List.Perm.refl _
  | y :: ys => by
    simp only [insertSorted]
    split
    · exact List.Perm.refl _
    · exact ((insertSorted_perm le x ys).cons y).trans (List.Perm.swap x y ys)

lemma sortBy_perm {α : Type} (le : α → α → Bool) :
    ∀ l : List α, (sortBy le l).Perm l
  | [] => List.Perm.refl _
  | x :: xs => (insertSorted_perm le x (sortBy le xs)).trans ((sortBy_perm le xs).cons x)

lemma mem_sortBy {α : Type} {le : α → α → Bool} {l : List α} {a : α} :
    a ∈ sortBy le l ↔ a ∈ l :=
  (sortBy_perm le l).mem_iff

lemma getD_mem {l : List (List Char)} {i : Nat} (h : i < l.length) :
    l.getD i [] ∈ l := by
  rw [List.getD_eq_getElem l [] h]
  exact List.getElem_mem h

lemma mem_iff_getD {l : List (List Char)} {w : List Char} :
    w ∈ l ↔ ∃ i, i < l.length ∧ l.getD i [] = w := by
  constructor
  · intro h
    obtain ⟨i, hi, hieq⟩ := List.mem_iff_getElem.mp h
    exact ⟨i, hi, by rw [List.getD_eq_getElem l [] hi]; exact hieq⟩
  · rintro ⟨i, hi, rfl⟩
    exact getD_mem hi

lemma sortedDict_le {d : List (List Char)} (hs : SortedDict d) {i j : Nat}
    (hij : i ≤ j) (hj : j < d.length) :
    ltCh (d.getD j []) (d.getD i []) = false := by
  rcases Nat.eq_or_lt_of_le hij with rfl | hlt
  · exact ltCh_irrefl _
  · have hi : i < d.length := lt_trans hlt hj
    have hrel := List.pairwise_iff_get.mp hs ⟨i, hi⟩ ⟨j, hj⟩ hlt
    rw [List.getD_eq_getElem d [] hj, List.getD_eq_getElem d [] hi]
    simpa [List.get_eq_getElem] using hrel

lemma isWordLoop_correct {d : List (List Char)} {w : List Char} (hs : SortedDict d) :
    ∀ (fuel b e : Nat), e ≤ d.length → e - b < fuel →
      (∀ i, i < b → i < d.length → ltCh (d.getD i []) w = true) →
      (∀ i, e ≤ i → i < d.length → ltCh w (d.getD i []) = true) →
      (SpellBS.isWordLoop d w fuel b e = true ↔ w ∈ d) := by
  intro fuel
  induction fuel with
  | zero => intro b e _ hf _ _; omega
  | succ fuel ih =>
    intro b e he hf hleft hright
    by_cases hbe : b < e
    · simp only [SpellBS.isWordLoop]
      rw [if_pos hbe]
      set mid := (b + e - 1) / 2 with hmid
      have hmb : b ≤ mid := by omega
      have hme : mid < e := by omega
      have hmlen : mid < d.length := lt_of_lt_of_le hme he
      by_cases heq : d.getD mid [] = w
      · rw [if_pos heq]
        simp only [true_iff]
        exact heq ▸ getD_mem hmlen
      · rw [if_neg heq]
        by_cases hlt : ltCh w (d.getD mid []) = true
        · rw [if_pos hlt]
          refine ih b mid (le_of_lt hmlen) (by omega) hleft ?_
          intro i hmi hilen
          rcases Nat.eq_or_lt_of_le hmi with rfl | hmi'
          · exact hlt
          · exact ltCh_lt_of_lt_of_le hlt (sortedDict_le hs (le_of_lt hmi') hilen)
        · rw [if_neg hlt]
          have hlt' : ltCh w (d.getD mid []) = false := by
            revert hlt; cases ltCh w (d.getD mid []) <;> simp
          have hm : ltCh (d.getD mid []) w = true := by
            rcases Bool.eq_false_or_eq_true (ltCh (d.getD mid []) w) with hh | hh
            · exact hh
            · exact absurd (ltCh_connect hlt' hh).symm heq
          refine ih (mid + 1) e he (by omega) ?_ hright
          intro i hi hilen
          rcases Nat.lt_succ_iff_lt_or_eq.mp hi with hi' | rfl
          · exact ltCh_lt_of_le_of_lt (sortedDict_le hs (le_of_lt hi') hmlen) hm
          · exact hm
    · simp only [SpellBS.isWordLoop]
      rw [if_neg hbe]
      simp only [Bool.false_eq_true, false_iff]
      intro hmem
      obtain ⟨i, hilen, hieq⟩ := mem_iff_getD.mp hmem
      rcases lt_or_ge i b with hib | hib
      · have hcon := hleft i hib hilen
        rw [hieq] at hcon
        simp [ltCh_irrefl] at hcon
      · have hei : e ≤ i := by omega
        have hcon := hright i hei hilen
        rw [hieq] at hcon
        simp [ltCh_irrefl] at hcon

/-- `isWord` is a correct membership oracle over a sorted dictionary. -/
lemma isWord_correct {d : List (List Char)} {w : List Char} (hs : SortedDict d) :
    SpellBS.isWord d w = true ↔ w ∈ d := by
  refine isWordLoop_correct hs (d.length + 1) 0 d.length le_rfl (by omega) ?_ ?_
  · intro i hi _
    exact absurd hi (Nat.not_lt_zero i)
  · intro i hei hilen
    exact (Nat.lt_irrefl _ (lt_of_lt_of_le hilen hei)).elim

lemma isValidPrefixLoop_correct {d : List (List Char)} {p : List Char}
    (hs : SortedDict d) :
    ∀ (fuel b e : Nat), e ≤ d.length → e - b < fuel →
      (∀ i, i < b → i < d.length → ltCh (d.getD i []) p = true) →
      (∀ i, e ≤ i → i < d.length → ¬(p <+: d.getD i [])) →
      (SpellBS.isValidPrefixLoop d p fuel b e = true ↔
        ∃ i, i < d.length ∧ p <+: d.getD i []) := by
  intro fuel
  induction fuel with
  | zero => intro b e _ hf _ _; omega
  | succ fuel ih =>
    intro b e he hf hleft hright
    by_cases hbe : b < e
    · simp only [SpellBS.isValidPrefixLoop]
      rw [if_pos hbe]
      set mid := (b + e - 1) / 2 with hmid
      have hmb : b ≤ mid := by omega
      have hme : mid < e := by omega
      have hmlen : mid < d.length := lt_of_lt_of_le hme he
      by_cases hpm : p.isPrefixOf (d.getD mid []) = true
      · rw [if_pos hpm]
        simp only [true_iff]
        exact ⟨mid, hmlen, List.isPrefixOf_iff_prefix.mp hpm⟩
      · rw [if_neg hpm]
        have hpm' : ¬(p <+: d.getD mid []) := fun hh =>
          hpm (List.isPrefixOf_iff_prefix.mpr hh)
        by_cases hlt : ltCh p (d.getD mid []) = true
        · rw [if_pos hlt]
          refine ih b mid (le_of_lt hmlen) (by omega) hleft ?_
          intro i hmi hilen hpre
          rcases Nat.eq_or_lt_of_le hmi with rfl | hmi'
          · exact hpm' hpre
          · have h1 := ltCh_of_lt_of_isPrefix hlt hpm' hpre
            have h2 := sortedDict_le hs (le_of_lt hmi') hilen
            rw [h1] at h2
            exact Bool.true_eq_false ▸ (by simp at h2)
        · rw [if_neg hlt]
          have hlt' : ltCh p (d.getD mid []) = false := by
            revert hlt; cases ltCh p (d.getD mid []) <;> simp
          have hm : ltCh (d.getD mid []) p = true := by
            rcases Bool.eq_false_or_eq_true (ltCh (d.getD mid []) p) with hh | hh
            · exact hh
            · exact absurd (ltCh_connect hlt' hh) (fun hh2 => hpm' (hh2 ▸ List.prefix_refl p))
          refine ih (mid + 1) e he (by omega) ?_ hright
          intro i hi hilen
          rcases Nat.lt_succ_iff_lt_or_eq.mp hi with hi' | rfl
          · exact ltCh_lt_of_le_of_lt (sortedDict_le hs (le_of_lt hi') hmlen) hm
          · exact hm
    · simp only [SpellBS.isValidPrefixLoop]
      rw [if_neg hbe]
      simp only [Bool.false_eq_true, false_iff]
      rintro ⟨i, hilen, hpre⟩
      rcases lt_or_ge i b with hib | hib
      · have hcon := hleft i hib hilen
        rw [ltCh_of_isPrefix hpre] at hcon
        simp at hcon
      · exact hright i (by omega) hilen hpre

/-- `isValidPrefix` is a correct prefix oracle over a sorted dictionary. -/
lemma isValidPrefix_correct {d : List (List Char)} {p : List Char} (hs : SortedDict d) :
    SpellBS.isValidPrefix d p = true ↔ (p = [] ∨ ∃ w ∈ d, p <+: w) := by
  by_cases hp : p.length = 0
  · rw [List.length_eq_zero] at hp
    subst hp
    simp [SpellBS.isValidPrefix]
  · rw [SpellBS.isValidPrefix, if_neg hp]
    have hne : p ≠ [] := fun hh => hp (by rw [hh]; rfl)
    rw [isValidPrefixLoop_correct hs (d.length + 1) 0 d.length le_rfl (by omega)
      (fun i hi _ => absurd hi (Nat.not_lt_zero i))
      (fun i hei hilen => (Nat.lt_irrefl _ (lt_of_lt_of_le hilen hei)).elim)]
    constructor
    · rintro ⟨i, hilen, hpre⟩
      exact Or.inr ⟨d.getD i [], getD_mem hilen, hpre⟩
    · rintro (rfl | ⟨w, hw, hpre⟩)
      · exact absurd rfl hne
      · obtain ⟨i, hilen, hieq⟩ := mem_iff_getD.mp hw
        exact ⟨i, hilen, hieq ▸ hpre⟩

lemma isTile_blankCell : isTile blankCell = false := by decide

lemma getD_map_range {α : Type} {n i : Nat} (f : Nat → α) (d : α) (h : i < n) :
    ((List.range n).map f).getD i d = f i := by
  rw [List.getD_eq_getElem _ _ (by simpa using h)]
  simp

lemma map_range_getD {α : Type} (l : List α) (d : α) :
    (List.range l.length).map (fun i => l.getD i d) = l := by
  apply List.ext_getElem (by simp)
  intro i h1 h2
  rw [List.getElem_map, List.getElem_range]
  exact List.getD_eq_getElem l d h2

/-- Reading a cell of a grid rebuilt from a cell function. -/
lemma getCell_rebuild (f : Nat → Nat → Cell) {r c : Nat} (hr : r < 13) (hc : c < 9) :
    getCell ((List.range 13).map fun r => (List.range 9).map fun c => f r c) r c = f r c := by
  unfold getCell
  rw [getD_map_range _ _ hr, getD_map_range _ _ hc]

lemma length_colCells (g : Grid) (c : Nat) : (colCells g c).length = 13 := by
  simp [colCells]

lemma length_filter_le {α : Type} (p : α → Bool) (l : List α) :
    (l.filter p).length ≤ l.length :=
  List.length_filter_le p l

lemma length_settleColumn (col : List Cell) (h : col.length = 13) :
    (settleColumn col).length = 13 := by
  have hle : (col.filter isTile).length ≤ 13 := h ▸ length_filter_le isTile col
  simp only [settleColumn, List.length_append, List.length_replicate]
  omega

lemma getCell_applyGravity (g : Grid) {r c : Nat} (hr : r < 13) (hc : c < 9) :
    getCell (applyGravity g) r c = (settleColumn (colCells g c)).getD r blankCell := by
  unfold applyGravity
  exact getCell_rebuild (fun r c => (settleColumn (colCells g c)).getD r blankCell) hr hc

lemma colCells_applyGravity (g : Grid) {c : Nat} (hc : c < 9) :
    colCells (applyGravity g) c = settleColumn (colCells g c) := by
  have hlen : (settleColumn (colCells g c)).length = 13 :=
    length_settleColumn _ (length_colCells g c)
  unfold colCells
  calc (List.range 13).map (fun r => getCell (applyGravity g) r c)
      = (List.range 13).map (fun r => (settleColumn (colCells g c)).getD r blankCell) := by
        apply List.map_congr_left
        intro r hrmem
        exact getCell_applyGravity g (List.mem_range.mp hrmem) hc
    _ = settleColumn (colCells g c) := by
        conv_lhs => rw [← hlen]
        exact map_range_getD _ _

lemma filter_settleColumn (col : List Cell) :
    (settleColumn col).filter isTile = col.filter isTile := by
  unfold settleColumn
  rw [List.filter_append]
  have h1 : (List.replicate (13 - (col.filter isTile).length) blankCell).filter isTile = [] := by
    rw [List.filter_eq_nil_iff]
    intro a ha
    rw [(List.mem_replicate.mp ha).2, isTile_blankCell]
    simp
  have h2 : (col.filter isTile).filter isTile = col.filter isTile := by
    rw [List.filter_eq_self]
    intro a ha
    exact List.of_mem_filter ha
  rw [h1, h2, List.nil_append]

lemma settleColumn_idem (col : List Cell) :
    settleColumn (settleColumn col) = settleColumn col := by
  conv_lhs => rw [settleColumn, filter_settleColumn]
  rfl

/-- Gravity is idempotent as a grid transformation. -/
lemma applyGravity_idem (g : Grid) :
    applyGravity (applyGravity g) = applyGravity g := by
  conv_lhs => rw [applyGravity]
  conv_rhs => rw [applyGravity]
  apply List.map_congr_left
  intro r _
  apply List.map_congr_left
  intro c hcmem
  rw [colCells_applyGravity g (List.mem_range.mp hcmem), settleColumn_idem]

/-- A well-formed grid is unchanged by the 13×9 rebuild from its own cells. -/
lemma rebuild_eq_self {g : Grid} (hg : WellFormed g) :
    ((List.range 13).map fun r => (List.range 9).map fun c => getCell g r c) = g := by
  obtain ⟨h13, hrows⟩ := hg
  apply List.ext_getElem (by simpa using h13.symm)
  intro r h1 h2
  have hr : r < 13 := by simpa using h1
  have hrow : g[r].length = 9 := hrows g[r] (List.getElem_mem h2)
  rw [List.getElem_map, List.getElem_range]
  apply List.ext_getElem (by simpa using hrow.symm)
  intro c h3 h4
  have hc : c < 9 := by simpa using h3
  rw [List.getElem_map, List.getElem_range]
  unfold getCell
  rw [List.getD_eq_getElem _ _ (h13 ▸ hr : r < g.length),
    List.getD_eq_getElem _ _ (hrow ▸ hc : c < g[r].length)]

/-- Clearing nothing leaves a well-formed grid unchanged. -/
lemma clearCells_empty {g : Grid} (hg : WellFormed g) :
    SpellTrie.clearCells g ∅ = g := by
  unfold SpellTrie.clearCells
  simp only [Finset.not_mem_empty, if_false]
  exact rebuild_eq_self hg

lemma getCell_clearCells (g : Grid) (s : Finset (Nat × Nat)) {r c : Nat}
    (hr : r < 13) (hc : c < 9) :
    getCell (SpellTrie.clearCells g s) r c =
      if (r, c) ∈ s then blankCell else getCell g r c := by
  unfold SpellTrie.clearCells
  exact getCell_rebuild (fun r c => if (r, c) ∈ s then blankCell else getCell g r c) hr hc

lemma sum_map_range (f : Nat → Nat) (n : Nat) :
    ((List.range n).map f).sum = ∑ i ∈ Finset.range n, f i := by
  induction n with
  | zero => simp
  | succ n ih =>
    rw [List.range_succ, List.map_append, List.sum_append, Finset.sum_range_succ, ih]
    simp

lemma length_filter_range (p : Nat → Bool) (n : Nat) :
    ((List.range n).filter p).length = ∑ i ∈ Finset.range n, if p i then 1 else 0 := by
  induction n with
  | zero => simp
  | succ n ih =>
    rw [List.range_succ, List.filter_append, List.length_append, Finset.sum_range_succ, ih]
    by_cases hp : p n <;> simp [hp]

/-- `countRemainingTiles` as a double sum over coordinates. -/
lemma countRemainingTiles_eq_sum (g : Grid) :
    countRemainingTiles g = ∑ r ∈ Finset.range 13, ∑ c ∈ Finset.range 9,
      (if isTile (getCell g r c) then 1 else 0) := by
  unfold countRemainingTiles
  rw [sum_map_range]
  apply Finset.sum_congr rfl
  intro r _
  exact length_filter_range _ 9

/-- `countRemainingTiles` column by column. -/
lemma countRemainingTiles_eq_cols (g : Grid) :
    countRemainingTiles g =
      ∑ c ∈ Finset.range 9, ((colCells g c).filter isTile).length := by
  rw [countRemainingTiles_eq_sum, Finset.sum_comm]
  apply Finset.sum_congr rfl
  intro c _
  rw [colCells, List.filter_map, List.length_map, length_filter_range]
  simp [Function.comp]

/-- Gravity preserves the tile count. -/
lemma countRemainingTiles_applyGravity (g : Grid) :
    countRemainingTiles (applyGravity g) = countRemainingTiles g := by
  rw [countRemainingTiles_eq_cols, countRemainingTiles_eq_cols]
  apply Finset.sum_congr rfl
  intro c hc
  rw [colCells_applyGravity g (Finset.mem_range.mp hc), filter_settleColumn]

/-- Clearing a set containing at least one in-bounds tile strictly
decreases the tile count. -/
lemma countRemainingTiles_clearCells_lt (g : Grid) (s : Finset (Nat × Nat))
    {p : Nat × Nat} (hps : p ∈ s) (hp1 : p.1 < 13) (hp2 : p.2 < 9)
    (hpt : isTile (getCell g p.1 p.2) = true) :
    countRemainingTiles (SpellTrie.clearCells g s) < countRemainingTiles g := by
  rw [countRemainingTiles_eq_sum, countRemainingTiles_eq_sum]
  apply Finset.sum_lt_sum
  · intro r hr
    apply Finset.sum_le_sum
    intro c hc
    rw [getCell_clearCells g s (Finset.mem_range.mp hr) (Finset.mem_range.mp hc)]
    split
    · simp [isTile_blankCell]
    · exact le_refl _
  · refine ⟨p.1, Finset.mem_range.mpr hp1, ?_⟩
    apply Finset.sum_lt_sum
    · intro c hc
      rw [getCell_clearCells g s (by exact hp1) (Finset.mem_range.mp hc)]
      split
      · simp [isTile_blankCell]
      · exact le_refl _
    · refine ⟨p.2, Finset.mem_range.mpr hp2, ?_⟩
      rw [getCell_clearCells g s hp1 hp2]
      have : ((p.1, p.2) : Nat × Nat) ∈ s := by
        rcases p with ⟨a, b⟩; exact hps
      rw [if_pos this, isTile_blankCell, hpt]
      simp

lemma toLower_idem (c : Char) : c.toLower.toLower = c.toLower := by
  unfold Char.toLower
  by_cases h : c.toNat ≥ 65 ∧ c.toNat ≤ 90
  · rw [if_pos h]
    have hval : (c.toNat + 32).isValidChar := by
      left
      omega
    have hv : (Char.ofNat (c.toNat + 32)).toNat = c.toNat + 32 := by
      rw [Char.ofNat, dif_pos hval]
      simp [Char.ofNatAux, Char.toNat, UInt32.ofNatCore, UInt32.toNat, BitVec.toNat_ofNat]
    rw [if_neg (by rw [hv]; omega)]
  · rw [if_neg h, if_neg h]

lemma getCell_out_of_range {g : Grid} (hg : WellFormed g) {r c : Nat}
    (h : ¬(r < 13 ∧ c < 9)) : getCell g r c = blankCell := by
  obtain ⟨h13, hrows⟩ := hg
  unfold getCell
  by_cases hr : r < 13
  · have hc : ¬ c < 9 := fun hc => h ⟨hr, hc⟩
    have hrl : r < g.length := h13 ▸ hr
    rw [List.getD_eq_getElem _ _ hrl]
    have hrow : g[r].length = 9 := hrows g[r] (List.getElem_mem hrl)
    exact List.getD_eq_default _ _ (by omega)
  · have hnil : g.getD r [] = [] := List.getD_eq_default _ _ (by omega)
    rw [hnil]
    rfl

lemma foldl_forall_mem {α β : Type} (P : β → Prop) (f : List β → α → List β)
    (l : List α)
    (hstep : ∀ acc a, a ∈ l → (∀ x ∈ acc, P x) → ∀ x ∈ f acc a, P x) :
    ∀ acc, (∀ x ∈ acc, P x) → ∀ x ∈ l.foldl f acc, P x := by
  induction l with
  | nil => intro acc h x hx; exact h x hx
  | cons a as ih =>
    intro acc h x hx
    exact ih (fun acc' a' ha' => hstep acc' a' (List.mem_cons_of_mem _ ha'))
      (f acc a) (hstep acc a (List.mem_cons_self _ _) h) x hx

lemma mem_ite_append {α : Type} {c : Prop} [Decidable c] {acc : List α} {w : α}
    {P : α → Prop} (hacc : ∀ x ∈ acc, P x) (hw : c → P w) :
    ∀ x ∈ (if c then acc ++ [w] else acc), P x := by
  intro x hx
  split at hx
  · rename_i hc
    rcases List.mem_append.mp hx with h | h
    · exact hacc x h
    · rw [List.mem_singleton] at h
      subst h
      exact hw hc
  · exact hacc x hx

lemma nodup_concat {α : Type} {l : List α} {a : α} :
    (l ++ [a]).Nodup ↔ l.Nodup ∧ a ∉ l := by
  simp [List.nodup_append]

lemma chain'_concat_of {α : Type} {R : α → α → Prop} {l : List α} {a : α}
    (hl : List.Chain' R l) (hlast : ∀ L ∈ l.getLast?, R L a) :
    List.Chain' R (l ++ [a]) := by
  rw [List.chain'_append]
  exact ⟨hl, List.chain'_singleton a, fun x hx y hy => by
    rw [List.head?_cons, Option.mem_some_iff] at hy
    subst hy
    exact hlast x hx⟩

lemma goodPath_extend {g : Grid} {f : Char → Char} {word : List Char}
    {path : List (Nat × Nat)} {row col : Nat} {ch : Char}
    (hgp : GoodPath g f word path)
    (hnotmem : (row, col) ∉ path)
    (hlast : ∀ L ∈ path.getLast?, Adj8 L (row, col))
    (hr : row < 13) (hc : col < 9)
    (hl : (getCell g row col).letter = some ch) :
    GoodPath g f (word ++ [f ch]) (path ++ [(row, col)]) := by
  obtain ⟨hnd, hch, hbd, hmap⟩ := hgp
  refine ⟨nodup_concat.mpr ⟨hnd, hnotmem⟩, chain'_concat_of hch hlast, ?_, ?_⟩
  · intro p hp
    rcases List.mem_append.mp hp with h | h
    · exact hbd p h
    · rw [List.mem_singleton] at h
      subst h
      exact ⟨hr, hc⟩
  · rw [List.map_append, List.map_append, hmap]
    simp [hl]

lemma getLast?_concat' {α : Type} (l : List α) (a : α) :
    (l ++ [a]).getLast? = some a := by
  simp [List.getLast?_concat]

lemma dfs_sound (lexicon : SpellTrie.Lexicon) {g : Grid} (hg : WellFormed g)
    (minLength maxLength : Nat) :
    ∀ (fuel row col : Nat) (word : List Char) (path : List (Nat × Nat))
      (acc : List RawWord),
      (∀ x ∈ acc, GoodRaw lexicon g minLength x) →
      GoodPath g id word path →
      TilePath g path →
      (∀ L ∈ path.getLast?, Adj8 L (row, col)) →
      ∀ x ∈ SpellTrie.dfs lexicon g minLength maxLength fuel row col word path acc,
        GoodRaw lexicon g minLength x := by
  intro fuel
  induction fuel with
  | zero =>
    intro row col word path acc hacc _ _ _ x hx
    simp only [SpellTrie.dfs] at hx
    exact hacc x hx
  | succ fuel ih =>
    intro row col word path acc hacc hgp htp hlast x hx
    simp only [SpellTrie.dfs] at hx
    split at hx
    · exact hacc x hx
    · rename_i hnotmem
      split at hx
      · exact hacc x hx
      · rename_i ch hch
        split at hx
        · exact hacc x hx
        · rename_i hnotblank
          split at hx
          · exact hacc x hx
          · rename_i hpref
            have hrc : row < 13 ∧ col < 9 := by
              by_contra hcon
              rw [getCell_out_of_range hg hcon] at hch
              simp [blankCell] at hch
            have hgp2 : GoodPath g id (word ++ [ch]) (path ++ [(row, col)]) := by
              have hext := goodPath_extend (f := id) hgp hnotmem hlast hrc.1 hrc.2 hch
              simpa using hext
            have htp2 : TilePath g (path ++ [(row, col)]) := by
              intro p hp
              rcases List.mem_append.mp hp with h | h
              · exact htp p h
              · rw [List.mem_singleton] at h
                subst h
                simp [isTile, hch, hnotblank]
            have hemit : ∀ y ∈ (if minLength ≤ (word ++ [ch]).length ∧
                  (word ++ [ch]).length ≤ maxLength ∧
                  lexicon.isWord (word ++ [ch]) = true ∧
                  (path ++ [(row, col)]) ∉ acc.map RawWord.path then
                    acc ++ [⟨word ++ [ch], path ++ [(row, col)]⟩]
                  else acc), GoodRaw lexicon g minLength y :=
              mem_ite_append hacc (fun hcond =>
                ⟨by simp, hgp2, htp2, hcond.1, hcond.2.2.1⟩)
            split at hx
            · refine foldl_forall_mem _ _ _ ?_ _ hemit x hx
              intro a q hq hall
              refine ih q.1 q.2 (word ++ [ch]) (path ++ [(row, col)]) a hall hgp2 htp2 ?_
              intro L hL
              rw [getLast?_concat', Option.mem_some_iff] at hL
              subst hL
              exact (mem_getAdjacentCells.mp hq).2.2
            · exact hemit x hx

lemma findWordsFromPosition_sound (lexicon : SpellTrie.Lexicon) {g : Grid}
    (hg : WellFormed g) (startRow startCol minLength maxLength : Nat) :
    ∀ x ∈ SpellTrie.findWordsFromPosition lexicon g startRow startCol minLength maxLength,
      GoodRaw lexicon g minLength x := by
  intro x hx
  rw [SpellTrie.findWordsFromPosition] at hx
  split at hx
  · simp at hx
  · refine dfs_sound lexicon hg minLength maxLength (maxLength + 1) startRow startCol [] [] []
      (by simp) ?_ ?_ ?_ x hx
    · exact ⟨List.nodup_nil, List.chain'_nil, by simp, by simp⟩
    · intro p hp
      simp at hp
    · intro L hL
      simp at hL

lemma addNewPaths_sound {P : RawWord → Prop} {acc ws : List RawWord}
    (hacc : ∀ x ∈ acc, P x) (hws : ∀ x ∈ ws, P x) :
    ∀ x ∈ SpellTrie.addNewPaths acc ws, P x := by
  refine foldl_forall_mem P _ ws ?_ acc hacc
  intro a w hw hall y hy
  split at hy
  · exact hall y hy
  · rcases List.mem_append.mp hy with h | h
    · exact hall y h
    · rw [List.mem_singleton] at h
      subst h
      exact hws _ hw

lemma findAllWordsRaw_sound (lexicon : SpellTrie.Lexicon) {g : Grid} (hg : WellFormed g) :
    ∀ x ∈ SpellTrie.findAllWordsRaw lexicon g, GoodRaw lexicon g 3 x := by
  refine foldl_forall_mem _ _ _ ?_ [] (by simp)
  intro acc row hrow hall
  refine foldl_forall_mem _ _ _ ?_ acc hall
  intro acc2 col hcol hall2
  exact addNewPaths_sound hall2 (findWordsFromPosition_sound lexicon hg row col 3 15)

/-- Every word path returned by `part_007`'s `findAllWords` comes from a
sound raw word, keeping its word and path. -/
lemma findAllWords_sound (lexicon : SpellTrie.Lexicon) {g : Grid} (hg : WellFormed g) :
    ∀ wp ∈ SpellTrie.findAllWords lexicon g,
      ∃ c : RawWord, GoodRaw lexicon g 3 c ∧ wp.word = c.word ∧ wp.path = c.path := by
  intro wp hwp
  simp only [SpellTrie.findAllWords] at hwp
  rw [mem_sortBy] at hwp
  obtain ⟨c, hc, rfl⟩ := List.mem_map.mp hwp
  exact ⟨c, findAllWordsRaw_sound lexicon hg c hc, rfl, rfl⟩

lemma traverse_sound (dictionary : List (List Char)) (g : Grid) :
    ∀ (fuel x y : Nat) (value : List Char) (path : List (Nat × Nat))
      (acc : List RawWord),
      (∀ w ∈ acc, GoodRawBS dictionary g w) →
      GoodPath g Char.toLower value path →
      value.map Char.toLower = value →
      (∀ L ∈ path.getLast?, Adj8 L (y, x)) →
      ∀ w ∈ SpellBS.traverse dictionary g fuel x y value path acc,
        GoodRawBS dictionary g w := by
  intro fuel
  induction fuel with
  | zero =>
    intro x y value path acc hacc _ _ _ w hw
    simp only [SpellBS.traverse] at hw
    exact hacc w hw
  | succ fuel ih =>
    intro x y value path acc hacc hgp hlow hlast w hw
    simp only [SpellBS.traverse] at hw
    split at hw
    · exact hacc w hw
    · rename_i hbounds
      split at hw
      · exact hacc w hw
      · rename_i ch hch
        split at hw
        · exact hacc w hw
        · rename_i hnotmem
          split at hw
          · exact hacc w hw
          · rename_i hpref
            have hxy : y < 13 ∧ x < 9 := by
              constructor <;> omega
            have hnw : (value ++ [ch]).map Char.toLower = value ++ [ch.toLower] := by
              rw [List.map_append, hlow]
              rfl
            rw [hnw] at hw
            have hlow2 : (value ++ [ch.toLower]).map Char.toLower =
                value ++ [ch.toLower] := by
              rw [List.map_append, hlow]
              simp [toLower_idem]
            have hgp2 : GoodPath g Char.toLower (value ++ [ch.toLower])
                (path ++ [(y, x)]) :=
              goodPath_extend hgp hnotmem hlast hxy.1 hxy.2 hch
            have hemit : ∀ u ∈ (if 3 ≤ (value ++ [ch.toLower]).length ∧
                  SpellBS.isWord dictionary (value ++ [ch.toLower]) = true ∧
                  (path ++ [(y, x)]) ∉ acc.map RawWord.path then
                    acc ++ [⟨value ++ [ch.toLower], path ++ [(y, x)]⟩]
                  else acc), GoodRawBS dictionary g u :=
              mem_ite_append hacc (fun hcond => ⟨by simp, hgp2, hcond.1, hcond.2.1⟩)
            refine foldl_forall_mem _ _ _ ?_ _ hemit w hw
            intro a q hq hall
            refine ih q.2 q.1 (value ++ [ch.toLower]) (path ++ [(y, x)]) a hall
              hgp2 hlow2 ?_
            intro L hL
            rw [getLast?_concat', Option.mem_some_iff] at hL
            subst hL
            exact (mem_getAdjacentCells.mp hq).2.2

/-- Every word path returned by `spelltower.ts`'s `findAllWords` comes
from a sound raw word, keeping its word and path. -/
lemma findAllWordsBS_sound (dictionary : List (List Char)) (g : Grid) :
    ∀ wp ∈ SpellBS.findAllWords dictionary g,
      ∃ c : RawWord, GoodRawBS dictionary g c ∧ wp.word = c.word ∧ wp.path = c.path := by
  intro wp hwp
  simp only [SpellBS.findAllWords] at hwp
  rw [mem_sortBy] at hwp
  obtain ⟨c, hc, rfl⟩ := List.mem_map.mp hwp
  refine ⟨c, ?_, rfl, rfl⟩
  refine foldl_forall_mem (GoodRawBS dictionary g) _ _ ?_ [] (by simp) c hc
  intro acc row hrow hall
  refine foldl_forall_mem _ _ _ ?_ acc hall
  intro acc2 col hcol hall2
  intro w hw
  split at hw
  · exact traverse_sound dictionary g 117 col row [] [] acc2 hall2
      ⟨List.nodup_nil, List.chain'_nil, by simp, by simp⟩ (by simp) (by simp) w hw
  · exact hall2 w hw

lemma mem_foldl_append {α β : Type} (f : α → List β) :
    ∀ (l : List α) (init : List β) (q : β),
      q ∈ l.foldl (fun acc p => acc ++ f p) init ↔ q ∈ init ∨ ∃ p ∈ l, q ∈ f p
  | [], init, q => by simp
  | a :: as, init, q => by
    simp only [List.foldl_cons]
    rw [mem_foldl_append f as (init ++ f a) q, List.mem_append]
    constructor
    · rintro ((h | h) | ⟨p, hp, hq⟩)
      · exact Or.inl h
      · exact Or.inr ⟨a, List.mem_cons_self _ _, h⟩
      · exact Or.inr ⟨p, List.mem_cons_of_mem _ hp, hq⟩
    · rintro (h | ⟨p, hp, hq⟩)
      · exact Or.inl (Or.inl h)
      · rcases List.mem_cons.mp hp with rfl | hp'
        · exact Or.inl (Or.inr hq)
        · exact Or.inr ⟨p, hp', hq⟩

lemma mem_foldl_append_if {α β : Type} (P : α → Prop) [DecidablePred P] (f : α → List β) :
    ∀ (l : List α) (init : List β) (q : β),
      q ∈ l.foldl (fun acc p => if P p then acc ++ f p else acc) init ↔
        q ∈ init ∨ ∃ p ∈ l, P p ∧ q ∈ f p
  | [], init, q => by simp
  | a :: as, init, q => by
    simp only [List.foldl_cons]
    by_cases hPa : P a
    · rw [if_pos hPa, mem_foldl_append_if P f as (init ++ f a) q, List.mem_append]
      constructor
      · rintro ((h | h) | ⟨p, hp, hPp, hq⟩)
        · exact Or.inl h
        · exact Or.inr ⟨a, List.mem_cons_self _ _, hPa, h⟩
        · exact Or.inr ⟨p, List.mem_cons_of_mem _ hp, hPp, hq⟩
      · rintro (h | ⟨p, hp, hPp, hq⟩)
        · exact Or.inl (Or.inl h)
        · rcases List.mem_cons.mp hp with rfl | hp'
          · exact Or.inl (Or.inr hq)
          · exact Or.inr ⟨p, hp', hPp, hq⟩
    · rw [if_neg hPa, mem_foldl_append_if P f as init q]
      constructor
      · rintro (h | ⟨p, hp, hPp, hq⟩)
        · exact Or.inl h
        · exact Or.inr ⟨p, List.mem_cons_of_mem _ hp, hPp, hq⟩
      · rintro (h | ⟨p, hp, hPp, hq⟩)
        · exact Or.inl h
        · rcases List.mem_cons.mp hp with rfl | hp'
          · exact absurd hPp hPa
          · exact Or.inr ⟨p, hp', hPp, hq⟩

/-- Membership in the clear set of `clearWordAndApplyGravity`, spelled
out: the path cells; the whole rows of red path cells when the
`hasRedTile` flag is set; the in-bounds 8-adjacent neighbours of path
cells for words of more than 4 letters; and for shorter words the
in-bounds 8-adjacent neighbours whose cell type is blank. -/
lemma mem_clearSet {g : Grid} {wp : WordPath} {q : Nat × Nat} :
    q ∈ SpellTrie.clearSet g wp ↔
      q ∈ wp.path
      ∨ (wp.hasRedTile = true ∧ ∃ p ∈ wp.path,
          (getCell g p.1 p.2).type = CellType.red ∧ q.1 = p.1 ∧ q.2 < 9)
      ∨ (4 < wp.word.length ∧ ∃ p ∈ wp.path, q.1 < 13 ∧ q.2 < 9 ∧ Adj8 p q)
      ∨ (wp.word.length ≤ 4 ∧ ∃ p ∈ wp.path, q.1 < 13 ∧ q.2 < 9 ∧ Adj8 p q ∧
          (getCell g q.1 q.2).type = CellType.blank) := by
  simp only [SpellTrie.clearSet, SpellTrie.clearList, List.mem_toFinset, List.mem_append]
  have hred : q ∈ (if wp.hasRedTile then
        wp.path.foldl (fun acc p =>
          if (getCell g p.1 p.2).type = CellType.red then
            acc ++ (List.range 9).map fun c => (p.1, c)
          else acc) []
      else []) ↔
      (wp.hasRedTile = true ∧ ∃ p ∈ wp.path,
        (getCell g p.1 p.2).type = CellType.red ∧ q.1 = p.1 ∧ q.2 < 9) := by
    by_cases hflag : wp.hasRedTile = true
    · rw [if_pos hflag,
        mem_foldl_append_if (fun p : Nat × Nat => (getCell g p.1 p.2).type = CellType.red)
          (fun p : Nat × Nat => (List.range 9).map fun c => (p.1, c)) _ _ _]
      simp only [List.not_mem_nil, false_or, hflag, true_and]
      constructor
      · rintro ⟨p, hp, hPp, hq⟩
        rw [List.mem_map] at hq
        obtain ⟨c, hc, hcq⟩ := hq
        rw [List.mem_range] at hc
        exact ⟨p, hp, hPp, by rw [← hcq], by rw [← hcq]; exact hc⟩
      · rintro ⟨p, hp, hPp, hq1, hq2⟩
        refine ⟨p, hp, hPp, ?_⟩
        rw [List.mem_map]
        exact ⟨q.2, List.mem_range.mpr hq2, Prod.ext hq1.symm rfl⟩
    · rw [if_neg hflag]
      simp [hflag]
  have hadj : q ∈ (if 4 < wp.word.length then
        wp.path.foldl (fun acc p => acc ++ getAdjacentCells p.1 p.2) []
      else
        wp.path.foldl (fun acc p =>
          acc ++ (getAdjacentCells p.1 p.2).filter fun r =>
            decide ((getCell g r.1 r.2).type = CellType.blank)) []) ↔
      ((4 < wp.word.length ∧ ∃ p ∈ wp.path, q.1 < 13 ∧ q.2 < 9 ∧ Adj8 p q)
        ∨ (wp.word.length ≤ 4 ∧ ∃ p ∈ wp.path, q.1 < 13 ∧ q.2 < 9 ∧ Adj8 p q ∧
            (getCell g q.1 q.2).type = CellType.blank)) := by
    by_cases hlen : 4 < wp.word.length
    · rw [if_pos hlen,
        mem_foldl_append (fun p : Nat × Nat => getAdjacentCells p.1 p.2) _ _ _]
      simp only [List.not_mem_nil, false_or]
      constructor
      · rintro ⟨p, hp, hq⟩
        obtain ⟨h1, h2, h3⟩ := mem_getAdjacentCells.mp hq
        exact Or.inl ⟨hlen, p, hp, h1, h2, h3⟩
      · rintro (⟨_, p, hp, h1, h2, h3⟩ | ⟨hle, _⟩)
        · exact ⟨p, hp, mem_getAdjacentCells.mpr ⟨h1, h2, h3⟩⟩
        · omega
    · rw [if_neg hlen,
        mem_foldl_append (fun p : Nat × Nat => (getAdjacentCells p.1 p.2).filter fun r =>
          decide ((getCell g r.1 r.2).type = CellType.blank)) _ _ _]
      simp only [List.not_mem_nil, false_or]
      constructor
      · rintro ⟨p, hp, hq⟩
        rw [List.mem_filter, decide_eq_true_eq] at hq
        obtain ⟨h1, h2, h3⟩ := mem_getAdjacentCells.mp hq.1
        exact Or.inr ⟨by omega, p, hp, h1, h2, h3, hq.2⟩
      · rintro (⟨hgt, _⟩ | ⟨_, p, hp, h1, h2, h3, h4⟩)
        · exact absurd hgt hlen
        · refine ⟨p, hp, ?_⟩
          rw [List.mem_filter, decide_eq_true_eq]
          exact ⟨mem_getAdjacentCells.mpr ⟨h1, h2, h3⟩, h4⟩
  rw [hred, hadj, or_assoc]

/-- The non-blank cells of a column after `clearWordAndApplyGravity`,
top to bottom: the column's rows that were not cleared and held a tile,
with their original cells, in the original order. -/
lemma applyWord_column_roundtrip (g : Grid) (wp : WordPath) {c : Nat} (hc : c < 9) :
    (colCells (SpellTrie.clearWordAndApplyGravity g wp) c).filter isTile =
      ((List.range 13).filter fun r =>
        decide ((r, c) ∉ SpellTrie.clearSet g wp) && isTile (getCell g r c)).map
        fun r => getCell g r c := by
  rw [SpellTrie.clearWordAndApplyGravity, colCells_applyGravity _ hc, filter_settleColumn]
  have hcol : colCells (SpellTrie.clearCells g (SpellTrie.clearSet g wp)) c =
      (List.range 13).map fun r =>
        if (r, c) ∈ SpellTrie.clearSet g wp then blankCell else getCell g r c := by
    unfold colCells
    apply List.map_congr_left
    intro r hr
    exact getCell_clearCells _ _ (List.mem_range.mp hr) hc
  rw [hcol, List.filter_map]
  have hpred : ∀ r ∈ List.range 13,
      ((isTile ∘ fun r => if (r, c) ∈ SpellTrie.clearSet g wp then blankCell
          else getCell g r c) r) =
        (decide ((r, c) ∉ SpellTrie.clearSet g wp) && isTile (getCell g r c)) := by
    intro r _
    by_cases hmem : (r, c) ∈ SpellTrie.clearSet g wp
    · simp [Function.comp, hmem, isTile_blankCell]
    · simp [Function.comp, hmem]
  rw [List.filter_congr hpred]
  apply List.map_congr_left
  intro r hr
  have hfr := List.of_mem_filter hr
  rw [Bool.and_eq_true] at hfr
  rw [if_neg (by simpa using hfr.1)]

lemma foldl_pair_mem {α β : Type} (P : α → Prop) (step : β × α → α → β × α)
    (l : List α)
    (hstep : ∀ st a, a ∈ l → P st.2 → P (step st a).2) :
    ∀ st, P st.2 → P (l.foldl step st).2 := by
  induction l with
  | nil =>
    intro st h
    exact h
  | cons a as ih =>
    intro st h
    exact ih (fun st' a' ha' => hstep st' a' (List.mem_cons_of_mem _ ha'))
      (step st a) (hstep st a (List.mem_cons_self _ _) h)

lemma headD_mem {α : Type} {l : List α} (h : l ≠ []) (d : α) : l.headD d ∈ l := by
  cases l with
  | nil => exact absurd rfl h
  | cons a as => exact List.mem_cons_self _ _

lemma pickByClearing_mem (g : Grid) {avail : List WordPath} (h : avail ≠ []) :
    SpellTrie.pickByClearing g avail ∈ avail := by
  refine foldl_pair_mem (· ∈ avail) _ (avail.take 20) ?_
    (0, avail.headD SpellTrie.dummyWord) (headD_mem h _)
  intro st a ha hst
  dsimp only
  split <;> split
  · exact List.mem_of_mem_take ha
  · exact hst
  · exact List.mem_of_mem_take ha
  · exact hst

lemma pickByLookahead_mem (g : Grid) {avail : List WordPath} (h : avail ≠ []) :
    SpellTrie.pickByLookahead g avail ∈ avail := by
  refine foldl_pair_mem (· ∈ avail) _ (avail.take 15) ?_
    (countRemainingTiles g, avail.headD SpellTrie.dummyWord) (headD_mem h _)
  intro st a ha hst
  dsimp only
  split
  · exact List.mem_of_mem_take ha
  · split
    · exact List.mem_of_mem_take ha
    · exact hst

/-- Whatever the strategy branch, the selected word is one of the
candidates. -/
lemma selectWord_mem (g : Grid) {avail : List WordPath} (h : avail ≠ []) :
    SpellTrie.selectWord g avail ∈ avail := by
  rw [SpellTrie.selectWord]
  split
  · exact pickByClearing_mem g h
  · exact pickByLookahead_mem g h

/-- Applying any word found on the current board strictly decreases the
tile count (the path is non-empty and consists of tiles, all of which
are cleared). -/
lemma applyWord_count_lt (lexicon : SpellTrie.Lexicon) {g : Grid} (hg : WellFormed g)
    {wp : WordPath} (hwp : wp ∈ SpellTrie.findAllWords lexicon g) :
    countRemainingTiles (SpellTrie.clearWordAndApplyGravity g wp) <
      countRemainingTiles g := by
  obtain ⟨c, ⟨hne, hgp, htp, _, _⟩, hword, hpath⟩ := findAllWords_sound lexicon hg wp hwp
  obtain ⟨p, hp⟩ := List.exists_mem_of_ne_nil c.path hne
  rw [SpellTrie.clearWordAndApplyGravity, countRemainingTiles_applyGravity]
  refine countRemainingTiles_clearCells_lt g _ ?_ (hgp.2.2.1 p hp).1 (hgp.2.2.1 p hp).2
    (htp p hp)
  apply mem_clearSet.mpr
  exact Or.inl (hpath ▸ hp)

lemma wellFormed_applyGravity (g : Grid) : WellFormed (applyGravity g) := by
  constructor
  · simp [applyGravity]
  · intro row hrow
    simp only [applyGravity, List.mem_map] at hrow
    obtain ⟨r, hr, hreq⟩ := hrow
    rw [← hreq]
    simp

lemma wellFormed_applyWord (g : Grid) (wp : WordPath) :
    WellFormed (SpellTrie.clearWordAndApplyGravity g wp) :=
  wellFormed_applyGravity _

/-- The solve loop performs at most as many applying steps as there are
tiles on the board, independent of the fuel (`MAX_ITERATIONS`). -/
lemma solveLoop_length (lexicon : SpellTrie.Lexicon) :
    ∀ (fuel : Nat) (g : Grid) (seq : List WordPath) (total : Nat),
      WellFormed g →
      (SpellTrie.solveLoop lexicon fuel g seq total).1.length ≤
        seq.length + countRemainingTiles g := by
  intro fuel
  induction fuel with
  | zero =>
    intro g seq total hg
    exact Nat.le_add_right _ _
  | succ fuel ih =>
    intro g seq total hg
    simp only [SpellTrie.solveLoop]
    split
    · exact Nat.le_add_right _ _
    · split
      · exact Nat.le_add_right _ _
      · rename_i hne
        have hne' : SpellTrie.findAllWords lexicon g ≠ [] := by
          intro hnil
          rw [hnil] at hne
          simp at hne
        have hmem := selectWord_mem g hne'
        have hlt := applyWord_count_lt lexicon hg hmem
        have hrec := ih (SpellTrie.clearWordAndApplyGravity g
            (SpellTrie.selectWord g (SpellTrie.findAllWords lexicon g)))
          (seq ++ [SpellTrie.selectWord g (SpellTrie.findAllWords lexicon g)])
          (total + (SpellTrie.selectWord g (SpellTrie.findAllWords lexicon g)).score)
          (wellFormed_applyWord _ _)
        rw [List.length_append] at hrec
        simp only [List.length_singleton] at hrec
        omega

/-- When the board is already empty, the loop exits at once and the
1000-point clear bonus is granted. -/
lemma solveSpelltower_of_empty (lexicon : SpellTrie.Lexicon) {g : Grid}
    (hg : isGridEmpty g = true) :
    SpellTrie.solveSpelltower lexicon g = ⟨[], 1000, true⟩ := by
  have hloop : SpellTrie.solveLoop lexicon 50 g [] 0 = ([], 0, g) := by
    simp only [SpellTrie.solveLoop]
    rw [if_pos hg]
  simp only [SpellTrie.solveSpelltower, hloop, hg]
  norm_num

lemma getCell_append_left {g : Grid} (extra : List (List Cell)) {r c : Nat}
    (hr : r < g.length) :
    getCell (g ++ extra) r c = getCell g r c := by
  unfold getCell
  rw [List.getD_append g extra [] r hr]

lemma isGridEmpty_emptyGrid_append (extra : List (List Cell)) :
    isGridEmpty (SpellTrie.createEmptyGrid ++ extra) = true := by
  have hlen : (SpellTrie.createEmptyGrid : Grid).length = 13 := by
    simp [SpellTrie.createEmptyGrid]
  simp only [isGridEmpty, List.all_eq_true]
  intro r hr c hc
  rw [List.mem_range] at hr hc
  rw [getCell_append_left extra (by omega)]
  have hcell : getCell SpellTrie.createEmptyGrid r c = blankCell := by
    rw [SpellTrie.createEmptyGrid]
    exact getCell_rebuild (fun _ _ => blankCell) hr hc
  rw [hcell, isTile_blankCell]
  rfl

/-! The claims. -/

/-- C1 counterexample: on the upper-case "CAT" board, `spelltower.ts`'s
search emits the word `"cat"`, whose characters are the *lowercased*
board letters, not the board letters `'C','A','T'` themselves — so
"word[i] equals the board letter at path[i]" fails as stated for
`traverse`. -/
theorem C1_counterexample_traverse_lowercases :
    (SpellBS.findAllWords catDict catBoardU).map WordPath.word = [['c', 'a', 't']] ∧
    ((SpellBS.findAllWords catDict catBoardU).map
      fun wp => wp.path.map fun p => (getCell catBoardU p.1 p.2).letter) =
        [[some 'C', some 'A', some 'T']] ∧
    (['c', 'a', 't'].map some : List (Option Char)) ≠ [some 'C', some 'A', some 'T'] :=
  ⟨by decide, by decide, by decide⟩

/-- C1 (amended): every WordPath emitted by the word search is
well-formed — pairwise-distinct in-bounds path coordinates, consecutive
coordinates 8-adjacent (Chebyshev distance 1), word length at least 3,
and the lexicon accepts the word; the word's letters are exactly the
board letters along the path for `part_007`'s `dfs`, and exactly the
*lowercased* board letters for `spelltower.ts`'s `traverse`. -/
theorem C1_wordpaths_wellformed :
    (∀ (lexicon : SpellTrie.Lexicon) (g : Grid), WellFormed g →
      ∀ wp ∈ SpellTrie.findAllWords lexicon g,
        wp.path.Nodup ∧ List.Chain' Adj8 wp.path ∧
        (∀ p ∈ wp.path, p.1 < 13 ∧ p.2 < 9) ∧
        wp.path.map (fun p => (getCell g p.1 p.2).letter) = wp.word.map some ∧
        3 ≤ wp.word.length ∧ lexicon.isWord wp.word = true) ∧
    (∀ (dictionary : List (List Char)) (g : Grid),
      ∀ wp ∈ SpellBS.findAllWords dictionary g,
        wp.path.Nodup ∧ List.Chain' Adj8 wp.path ∧
        (∀ p ∈ wp.path, p.1 < 13 ∧ p.2 < 9) ∧
        wp.path.map (fun p => ((getCell g p.1 p.2).letter).map Char.toLower) =
          wp.word.map some ∧
        3 ≤ wp.word.length ∧ SpellBS.isWord dictionary wp.word = true) := by
  constructor
  · intro lexicon g hg wp hwp
    obtain ⟨c, ⟨hne, ⟨hnd, hch, hbd, hmap⟩, htp, hmin, hiw⟩, hw, hp⟩ :=
      findAllWords_sound lexicon hg wp hwp
    rw [hw, hp]
    refine ⟨hnd, hch, hbd, ?_, hmin, hiw⟩
    rw [← hmap]
    apply List.map_congr_left
    intro p _
    simp
  · intro dictionary g wp hwp
    obtain ⟨c, ⟨hne, ⟨hnd, hch, hbd, hmap⟩, hmin, hiw⟩, hw, hp⟩ :=
      findAllWordsBS_sound dictionary g wp hwp
    rw [hw, hp]
    exact ⟨hnd, hch, hbd, hmap, hmin, hiw⟩

/-- C1 witness: the amended claim instantiated on the "cat" board. -/
theorem C1_wordpaths_wellformed_witness :
    WellFormed catBoard ∧
    (⟨['c', 'a', 't'], [(12, 0), (12, 1), (12, 2)], 9, false, false⟩ : WordPath) ∈
      SpellTrie.findAllWords catLex catBoard ∧
    ((⟨['c', 'a', 't'], [(12, 0), (12, 1), (12, 2)], 9, false, false⟩ : WordPath).path.Nodup ∧
      List.Chain' Adj8
        (⟨['c', 'a', 't'], [(12, 0), (12, 1), (12, 2)], 9, false, false⟩ : WordPath).path ∧
      (∀ p ∈ (⟨['c', 'a', 't'], [(12, 0), (12, 1), (12, 2)], 9, false, false⟩ : WordPath).path,
        p.1 < 13 ∧ p.2 < 9) ∧
      (⟨['c', 'a', 't'], [(12, 0), (12, 1), (12, 2)], 9, false, false⟩ : WordPath).path.map
        (fun p => (getCell catBoard p.1 p.2).letter) =
        (⟨['c', 'a', 't'], [(12, 0), (12, 1), (12, 2)], 9, false, false⟩ : WordPath).word.map
          some ∧
      3 ≤ (⟨['c', 'a', 't'], [(12, 0), (12, 1), (12, 2)], 9, false, false⟩ : WordPath).word.length ∧
      catLex.isWord
        (⟨['c', 'a', 't'], [(12, 0), (12, 1), (12, 2)], 9, false, false⟩ : WordPath).word = true) :=
  ⟨by unfold WellFormed; decide, by decide,
    C1_wordpaths_wellformed.1 catLex catBoard (by unfold WellFormed; decide) _ (by decide)⟩

/-- C2 counterexample: on the Scenario A board with a dictionary holding
exactly "cat", `solveSpelltower` of `spelltower.ts` returns the single
WordPath `"cat"` with score 21 (the `LETTER_VALUES` table has C = 4, so
`(4+1+2)×3×1 = 21`, not the claimed 18) and `clearedAll = false` (both
return paths of `solveSpelltower` set `clearedAll: false`). -/
theorem C2_counterexample_score_and_clearedAll :
    SpellBS.solveSpelltower catDict catBoard =
      ⟨[⟨['c', 'a', 't'], [(12, 0), (12, 1), (12, 2)], 21, false, false⟩], 21, false⟩ ∧
    ¬((SpellBS.solveSpelltower catDict catBoard).sequence.map WordPath.score = [18] ∧
      (SpellBS.solveSpelltower catDict catBoard).clearedAll = true) :=
  ⟨by decide, by decide⟩

/-- C2 (amended): every discovered WordPath's score equals
(sum of the `LETTER_VALUES` of the letters along the path) × (word
length) × (1 + number of starred cells in the path); on the Scenario A
board (only `(12,0)='c'`, `(12,1)='a'`, `(12,2)='t'`, normal kind) with
a dictionary holding exactly "cat", `solve` returns the single WordPath
`"cat"` with `hasRedTile = false`, `hasStarredTile = false`, score
`(4+1+2)×3×1 = 21`, and `clearedAll = false`. -/
theorem C2_score_formula_and_scenario :
    (∀ (dictionary : List (List Char)) (g : Grid),
      ∀ wp ∈ SpellBS.findAllWords dictionary g,
        wp.score =
          (wp.path.map fun p =>
            ((getCell g p.1 p.2).letter.map SpellBS.getLetterValue).getD 0).sum *
          wp.word.length *
          (1 + (wp.path.filter fun p =>
            decide ((getCell g p.1 p.2).type = CellType.starred)).length)) ∧
    SpellBS.solveSpelltower catDict catBoard =
      ⟨[⟨['c', 'a', 't'], [(12, 0), (12, 1), (12, 2)], 21, false, false⟩], 21, false⟩ := by
  constructor
  · intro dictionary g wp hwp
    simp only [SpellBS.findAllWords] at hwp
    rw [mem_sortBy] at hwp
    obtain ⟨c, hc, rfl⟩ := List.mem_map.mp hwp
    rfl
  · decide

/-- C2 witness: the score formula instantiated on the "cat" board. -/
theorem C2_score_formula_witness :
    (⟨['c', 'a', 't'], [(12, 0), (12, 1), (12, 2)], 21, false, false⟩ : WordPath) ∈
      SpellBS.findAllWords catDict catBoard ∧
    (⟨['c', 'a', 't'], [(12, 0), (12, 1), (12, 2)], 21, false, false⟩ : WordPath).score =
      ((⟨['c', 'a', 't'], [(12, 0), (12, 1), (12, 2)], 21, false, false⟩ : WordPath).path.map
        fun p => ((getCell catBoard p.1 p.2).letter.map SpellBS.getLetterValue).getD 0).sum *
      (⟨['c', 'a', 't'], [(12, 0), (12, 1), (12, 2)], 21, false, false⟩ : WordPath).word.length *
      (1 + ((⟨['c', 'a', 't'], [(12, 0), (12, 1), (12, 2)], 21, false, false⟩ : WordPath).path.filter
        fun p => decide ((getCell catBoard p.1 p.2).type = CellType.starred)).length) :=
  ⟨by decide, C2_score_formula_and_scenario.1 catDict catBoard _ (by decide)⟩

/-- C3 counterexample: the 5-letter diagonal word path clears the cell
`(10,0)`, which is in the clear set although it is not on the path and
is 4-directionally adjacent to no path cell (it is only diagonally
adjacent to `(11,1)`) — the adjacency bonus is 8-directional, not
4-directional. -/
theorem C3_counterexample_diagonal_cleared :
    4 < wpDiag.word.length ∧ wpDiag.hasRedTile = false ∧
    (10, 0) ∈ SpellTrie.clearSet diagBoard wpDiag ∧
    (10, 0) ∉ wpDiag.path ∧
    (∀ p ∈ wpDiag.path, ¬ Adj4 p (10, 0)) :=
  ⟨by decide, by decide, by decide, by decide, by simp only [Adj4]; decide⟩

/-- C3 (amended): for a played word of length at least 5 with no red
tiles, the clear set contains, beyond the path cells, exactly the
in-bounds *8-directional* neighbours of the path cells; for words
shorter than 5 letters the cells beyond the path and the red rows that
enter the clear set all have blank type, so (on a board where blank
cells carry no letter) no cell beyond the path and the red rows is
cleared of its letter. -/
theorem C3_clear_set_adjacency :
    (∀ (g : Grid) (wp : WordPath), wp.hasRedTile = false → 4 < wp.word.length →
      ∀ q : Nat × Nat, q ∈ SpellTrie.clearSet g wp ↔
        q ∈ wp.path ∨ ∃ p ∈ wp.path, q.1 < 13 ∧ q.2 < 9 ∧ Adj8 p q) ∧
    (∀ (g : Grid) (wp : WordPath), wp.word.length ≤ 4 →
      (∀ r < 13, ∀ c < 9,
        (getCell g r c).type = CellType.blank → (getCell g r c).letter = none) →
      ∀ r c : Nat, r < 13 → c < 9 → (r, c) ∉ wp.path →
      (∀ p ∈ wp.path, (getCell g p.1 p.2).type = CellType.red → r ≠ p.1) →
      (getCell (SpellTrie.clearCells g (SpellTrie.clearSet g wp)) r c).letter =
        (getCell g r c).letter) := by
  constructor
  · intro g wp hflag hlen q
    rw [mem_clearSet]
    constructor
    · rintro (h | ⟨hf, _⟩ | ⟨_, h⟩ | ⟨hle, _⟩)
      · exact Or.inl h
      · rw [hflag] at hf
        exact absurd hf (by simp)
      · exact Or.inr h
      · omega
    · rintro (h | h)
      · exact Or.inl h
      · exact Or.inr (Or.inr (Or.inl ⟨hlen, h⟩))
  · intro g wp hlen hinv r c hr hc hnp hnred
    rw [getCell_clearCells g _ hr hc]
    split
    · rename_i hmem
      rcases mem_clearSet.mp hmem with
        h | ⟨hf, p, hp, hpred, hq1, _⟩ | ⟨hgt, _⟩ | ⟨_, p, hp, _, _, _, hblank⟩
      · exact absurd h hnp
      · exact absurd hq1 (hnred p hp hpred)
      · omega
      · rw [hinv r hr c hc hblank]
        rfl
    · rfl

/-- C3 witness: the amended claim instantiated on the diagonal board
(the long-word case) and on the red board at cell `(6,0)` (the
short-word case). -/
theorem C3_clear_set_adjacency_witness :
    (wpDiag.hasRedTile = false ∧ 4 < wpDiag.word.length ∧
      ((10, 0) ∈ SpellTrie.clearSet diagBoard wpDiag ↔
        (10, 0) ∈ wpDiag.path ∨
          ∃ p ∈ wpDiag.path, (10 : Nat) < 13 ∧ (0 : Nat) < 9 ∧ Adj8 p (10, 0))) ∧
    (wpRed.word.length ≤ 4 ∧
      (getCell (SpellTrie.clearCells redBoard (SpellTrie.clearSet redBoard wpRed)) 6 0).letter =
        (getCell redBoard 6 0).letter) :=
  ⟨⟨by decide, by decide,
     C3_clear_set_adjacency.1 diagBoard wpDiag (by decide) (by decide) (10, 0)⟩,
   ⟨by decide,
     C3_clear_set_adjacency.2 redBoard wpRed (by decide) (by decide) 6 0
       (by decide) (by decide) (by decide) (by decide)⟩⟩

/-- C4 counterexample: after playing the 3-letter word with a red cell
in row 7 on a board whose column 8 is full, row 7 is *not* all blank —
gravity moves the tiles of rows 0–6 down, so `(7,8)` again holds the
tile `'x'`. -/
theorem C4_counterexample_gravity_refills_row :
    wpRed.word.length = 3 ∧ wpRed.hasRedTile = true ∧
    (7, 0) ∈ wpRed.path ∧ (getCell redBoard 7 0).type = CellType.red ∧
    (getCell (SpellTrie.clearWordAndApplyGravity redBoard wpRed) 7 8).letter = some 'x' ∧
    getCell (SpellTrie.clearWordAndApplyGravity redBoard wpRed) 7 8 ≠ blankCell :=
  ⟨by decide, by decide, by decide, by decide, by decide, by decide⟩

/-- C4 (amended): for every path cell of red kind (with the
`hasRedTile` flag consistent with the path, as `findAllWords` produces
it), the whole row of that cell enters the clear set, and immediately
after the clearing step — before gravity — every cell of that row is
blank; after gravity, tiles from higher rows may re-occupy the row. -/
theorem C4_red_row_cleared :
    (∀ (g : Grid) (wp : WordPath),
      wp.hasRedTile =
        (wp.path.any fun p => decide ((getCell g p.1 p.2).type = CellType.red)) →
      ∀ p ∈ wp.path, (getCell g p.1 p.2).type = CellType.red →
        ∀ c : Nat, c < 9 → (p.1, c) ∈ SpellTrie.clearSet g wp) ∧
    (∀ (g : Grid) (wp : WordPath),
      wp.hasRedTile =
        (wp.path.any fun p => decide ((getCell g p.1 p.2).type = CellType.red)) →
      ∀ p ∈ wp.path, (getCell g p.1 p.2).type = CellType.red → p.1 < 13 →
        ∀ c : Nat, c < 9 →
          getCell (SpellTrie.clearCells g (SpellTrie.clearSet g wp)) p.1 c = blankCell) := by
  have hmem : ∀ (g : Grid) (wp : WordPath),
      wp.hasRedTile =
        (wp.path.any fun p => decide ((getCell g p.1 p.2).type = CellType.red)) →
      ∀ p ∈ wp.path, (getCell g p.1 p.2).type = CellType.red →
        ∀ c : Nat, c < 9 → (p.1, c) ∈ SpellTrie.clearSet g wp := by
    intro g wp hflag p hp hred c hc
    apply mem_clearSet.mpr
    refine Or.inr (Or.inl ⟨?_, p, hp, hred, rfl, hc⟩)
    rw [hflag, List.any_eq_true]
    exact ⟨p, hp, by rw [hred]; simp⟩
  refine ⟨hmem, ?_⟩
  intro g wp hflag p hp hred hr c hc
  rw [getCell_clearCells g _ hr hc, if_pos (hmem g wp hflag p hp hred c hc)]

/-- C4 witness: the amended claim instantiated on the red board: the
whole of row 7 enters the clear set and is blank before gravity. -/
theorem C4_red_row_cleared_witness :
    wpRed.hasRedTile =
      (wpRed.path.any fun p => decide ((getCell redBoard p.1 p.2).type = CellType.red)) ∧
    (7, 0) ∈ wpRed.path ∧ (getCell redBoard 7 0).type = CellType.red ∧
    (7, 8) ∈ SpellTrie.clearSet redBoard wpRed ∧
    getCell (SpellTrie.clearCells redBoard (SpellTrie.clearSet redBoard wpRed)) 7 8 =
      blankCell :=
  ⟨by decide, by decide, by decide,
    C4_red_row_cleared.1 redBoard wpRed (by decide) (7, 0) (by decide) (by decide) 8
      (by decide),
    C4_red_row_cleared.2 redBoard wpRed (by decide) (7, 0) (by decide) (by decide)
      (by decide) 8 (by decide)⟩

/-- C5: after `clearWordAndApplyGravity`, each column's non-blank cells
read top-to-bottom are exactly the column's pre-clear non-blank cells at
the rows that were not cleared, with their original cell values (letter
and kind unchanged) in the original relative order; and gravity alone
never changes a column's non-blank cell list. Cells never move between
columns: each output column is determined by the same input column. -/
theorem C5_column_roundtrip :
    (∀ (g : Grid) (wp : WordPath) (c : Nat), c < 9 →
      (colCells (SpellTrie.clearWordAndApplyGravity g wp) c).filter isTile =
        ((List.range 13).filter fun r =>
          decide ((r, c) ∉ SpellTrie.clearSet g wp) && isTile (getCell g r c)).map
          fun r => getCell g r c) ∧
    (∀ (g : Grid) (c : Nat), c < 9 →
      (colCells (applyGravity g) c).filter isTile = (colCells g c).filter isTile) := by
  constructor
  · intro g wp c hc
    exact applyWord_column_roundtrip g wp hc
  · intro g c hc
    rw [colCells_applyGravity g hc, filter_settleColumn]

/-- C5 witness: the round-trip instantiated on the red board, column 8. -/
theorem C5_column_roundtrip_witness :
    ((colCells (SpellTrie.clearWordAndApplyGravity redBoard wpRed) 8).filter isTile =
      ((List.range 13).filter fun r =>
        decide ((r, 8) ∉ SpellTrie.clearSet redBoard wpRed) &&
          isTile (getCell redBoard r 8)).map fun r => getCell redBoard r 8) ∧
    ((colCells (applyGravity redBoard) 0).filter isTile =
      (colCells redBoard 0).filter isTile) :=
  ⟨C5_column_roundtrip.1 redBoard wpRed 8 (by decide),
   C5_column_roundtrip.2 redBoard 0 (by decide)⟩

/-- C6: gravity is idempotent — applying it twice equals applying it
once — and the clearing step with an empty clear set returns the
well-formed input board unchanged. -/
theorem C6_gravity_idempotent :
    (∀ g : Grid, applyGravity (applyGravity g) = applyGravity g) ∧
    (∀ g : Grid, WellFormed g → SpellTrie.clearCells g ∅ = g) :=
  ⟨applyGravity_idem, fun _ hg => clearCells_empty hg⟩

/-- C6 witness: idempotence and empty-clear instantiated on the cat
board. -/
theorem C6_gravity_idempotent_witness :
    applyGravity (applyGravity catBoard) = applyGravity catBoard ∧
    WellFormed catBoard ∧ SpellTrie.clearCells catBoard ∅ = catBoard :=
  ⟨C6_gravity_idempotent.1 catBoard, by unfold WellFormed; decide,
   C6_gravity_idempotent.2 catBoard (by unfold WellFormed; decide)⟩

/-- C7: every applying step of the sequencing solver strictly reduces
the number of non-blank cells (any word found on the current board
clears at least its non-empty path of tiles), and consequently `solve`
performs at most `countRemainingTiles` applying steps — a bound
independent of the 50-iteration safety cap. -/
theorem C7_termination_bound :
    ∀ (lexicon : SpellTrie.Lexicon) (g : Grid), WellFormed g →
      (∀ wp ∈ SpellTrie.findAllWords lexicon g,
        countRemainingTiles (SpellTrie.clearWordAndApplyGravity g wp) <
          countRemainingTiles g) ∧
      (SpellTrie.solveSpelltower lexicon g).sequence.length ≤ countRemainingTiles g := by
  intro lexicon g hg
  constructor
  · intro wp hwp
    exact applyWord_count_lt lexicon hg hwp
  · have h := solveLoop_length lexicon 50 g [] 0 hg
    simpa [SpellTrie.solveSpelltower] using h

/-- C7 witness: the termination bound instantiated on the cat board. -/
theorem C7_termination_bound_witness :
    WellFormed catBoard ∧
    countRemainingTiles
      (SpellTrie.clearWordAndApplyGravity catBoard
        ⟨['c', 'a', 't'], [(12, 0), (12, 1), (12, 2)], 9, false, false⟩) <
      countRemainingTiles catBoard ∧
    (SpellTrie.solveSpelltower catLex catBoard).sequence.length ≤
      countRemainingTiles catBoard :=
  ⟨by unfold WellFormed; decide,
   (C7_termination_bound catLex catBoard (by unfold WellFormed; decide)).1 _ (by decide),
   (C7_termination_bound catLex catBoard (by unfold WellFormed; decide)).2⟩

/-- C8 counterexample: on the all-blank board, `solveSpelltower` of
`part_007` returns `totalScore = 1000` (the clear bonus), not the
claimed 0. -/
theorem C8_counterexample_clear_bonus :
    SpellTrie.solveSpelltower catLex SpellTrie.createEmptyGrid = ⟨[], 1000, true⟩ ∧
    (SpellTrie.solveSpelltower catLex SpellTrie.createEmptyGrid).totalScore ≠ 0 :=
  ⟨by decide, by decide⟩

/-- C8 (amended): on an all-blank 13×9 board, `solve` returns
`{sequence: [], totalScore: 1000, clearedAll: true}` immediately (no
applying step; the code adds a 1000-point bonus for a cleared board). -/
theorem C8_empty_board_solve :
    ∀ lexicon : SpellTrie.Lexicon,
      SpellTrie.solveSpelltower lexicon SpellTrie.createEmptyGrid = ⟨[], 1000, true⟩ :=
  fun lexicon => solveSpelltower_of_empty lexicon (by decide)

/-- C8 witness: the empty-board result with a concrete lexicon. -/
theorem C8_empty_board_solve_witness :
    SpellTrie.solveSpelltower catLex SpellTrie.createEmptyGrid = ⟨[], 1000, true⟩ :=
  C8_empty_board_solve catLex

/-- C9 counterexample: a 14-row all-blank board is malformed, yet
`solveSpelltower` does not reject it — it silently returns the ordinary
result of the 13×9 sub-board. -/
theorem C9_counterexample_oversized_board_accepted :
    grid14.length = 14 ∧ grid14.length ≠ 13 ∧
    SpellTrie.solveSpelltower catLex grid14 = ⟨[], 1000, true⟩ :=
  ⟨by decide, by decide, by decide⟩

/-- C9 (amended): `solve` performs no dimension validation: a board with
any extra rows beyond the 13 it operates on is processed exactly as if
they were absent (here: all-blank first 13 rows always give the normal
empty-board result, whatever rows follow) — malformed input is silently
coerced into a solve result, never rejected. -/
theorem C9_no_dimension_validation :
    ∀ (lexicon : SpellTrie.Lexicon) (extra : List (List Cell)),
      SpellTrie.solveSpelltower lexicon (SpellTrie.createEmptyGrid ++ extra) =
        ⟨[], 1000, true⟩ :=
  fun lexicon extra => solveSpelltower_of_empty lexicon (isGridEmpty_emptyGrid_append extra)

/-- C9 witness: the no-validation theorem instantiated with one extra
blank row (a 14-row board). -/
theorem C9_no_dimension_validation_witness :
    SpellTrie.solveSpelltower catLex (SpellTrie.createEmptyGrid ++ [blankRow]) =
      ⟨[], 1000, true⟩ :=
  C9_no_dimension_validation catLex [blankRow]

/-- C10: over any ascending-sorted dictionary, `isWord` decides exactly
membership and `isValidPrefix` decides exactly "empty or some word
starts with it". -/
theorem C10_binary_search_oracles :
    ∀ dictionary : List (List Char), SortedDict dictionary →
      ∀ w : List Char,
        (SpellBS.isWord dictionary w = true ↔ w ∈ dictionary) ∧
        (SpellBS.isValidPrefix dictionary w = true ↔
          w = [] ∨ ∃ x ∈ dictionary, w <+: x) :=
  fun _ hs _ => ⟨isWord_correct hs, isValidPrefix_correct hs⟩

/-- C10 witness: the oracles instantiated on the one-word dictionary. -/
theorem C10_binary_search_oracles_witness :
    SortedDict catDict ∧
    ((SpellBS.isWord catDict ['c', 'a', 't'] = true ↔ ['c', 'a', 't'] ∈ catDict) ∧
      (SpellBS.isValidPrefix catDict ['c', 'a', 't'] = true ↔
        ['c', 'a', 't'] = [] ∨ ∃ x ∈ catDict, ['c', 'a', 't'] <+: x)) :=
  ⟨by unfold SortedDict; decide,
   C10_binary_search_oracles catDict (by unfold SortedDict; decide) ['c', 'a', 't']⟩
